import Mathlib

/-!
Verification development for the incident-chatbot SQL generation pipeline
(`llm_sql_generator1.py`): fast intent routing, LLM output cleaning, safety
validation, regex-based repair, and the orchestrating `generate_sql`.

Strings are modelled as `List Char`. Python's `str.upper`/`str.lower` are
modelled by their ASCII case maps (`pyUpper`/`pyLower`); `str.strip` by
`pyStrip` over Python's whitespace set; the regular expressions used by the
source (`FROM\s+\w+`, `WHERE\s+\w+`, `['\"]key['\"]`, "```(sql)?",
`(SELECT[\s\S]+?;)`, `(SELECT[\s\S]+)`, `inc[-\s]?(\d+)`) are modelled by
explicit left-to-right scanners with the same leftmost / greedy / lazy
semantics. The external Ollama call is modelled as an oracle function
`service : prompt -> response`; the `except`-wrapped failure modes of
`call_llm` all collapse to the empty response, exactly as in the source.
-/

/-- `String` literal to `List Char`. -/
def lc (s : String) : List Char := s.toList

/-- The single-quote character `'`. -/
def squote : Char := Char.ofNat 39

/-- The double-quote character `"`. -/
def dquote : Char := Char.ofNat 34

/-- The backtick character. -/
def bquote : Char := Char.ofNat 96

/-- Python `str.strip` / regex `\s` whitespace set (ASCII). -/
def pySpace (c : Char) : Bool :=
  c == ' ' || c == '\t' || c == '\n' || c == '\r' || c == '\x0b' || c == '\x0c'

/-- Regex `\w` word characters (ASCII): letters, digits, underscore. -/
def isWordChar (c : Char) : Bool := c.isAlphanum || c == '_'

/-- The 26 ASCII letter case pairs, upper first. -/
def lowerPairs : List (Char × Char) :=
  [('A','a'),('B','b'),('C','c'),('D','d'),('E','e'),('F','f'),('G','g'),
   ('H','h'),('I','i'),('J','j'),('K','k'),('L','l'),('M','m'),('N','n'),
   ('O','o'),('P','p'),('Q','q'),('R','r'),('S','s'),('T','t'),('U','u'),
   ('V','v'),('W','w'),('X','x'),('Y','y'),('Z','z')]

/-- ASCII model of Python `str.lower` on one character. -/
def pyLower (c : Char) : Char :=
  ((lowerPairs.find? (fun p => p.1 == c)).map (fun p => p.2)).getD c

/-- ASCII model of Python `str.upper` on one character. -/
def pyUpper (c : Char) : Char :=
  ((lowerPairs.find? (fun p => p.2 == c)).map (fun p => p.1)).getD c

/-- Python `str.upper` on a string. -/
def upperL (l : List Char) : List Char := l.map pyUpper

/-- Python `str.lower` on a string. -/
def lowerL (l : List Char) : List Char := l.map pyLower

/-- Python `str.strip()`: drop whitespace from both ends. -/
def pyStrip (l : List Char) : List Char :=
  List.rdropWhile pySpace (l.dropWhile pySpace)

/-- Python `str.rstrip(";")`: drop all trailing semicolons. -/
def rstripSemi (l : List Char) : List Char :=
  List.rdropWhile (fun c => c == ';') l

/-- Python `in` on strings: substring test. -/
def hasInfix (pat : List Char) : List Char → Bool
  | [] => pat.isEmpty
  | c :: cs => pat.isPrefixOf (c :: cs) || hasInfix pat cs

/-- Case-insensitive prefix test; `pat` is given lowercase. -/
def hasPrefixCI : List Char → List Char → Bool
  | [], _ => true
  | _ :: _, [] => false
  | p :: ps, c :: cs => pyLower c == p && hasPrefixCI ps cs

/-- `forbidden` of `valid_sql`, uppercase as compared by the source. -/
def forbiddenTokens : List (List Char) :=
  [lc "UPDATE", lc "DELETE", lc "INSERT", lc "DROP", lc "ALTER", lc "TRUNCATE", lc "--"]

/-- `valid_sql` of `llm_sql_generator1.py`: nonempty, the upper-cased stripped
string starts with `SELECT`, and none of the forbidden tokens occurs in it. -/
def valid_sql (sql : List Char) : Bool :=
  if sql.isEmpty then false
  else
    let s := pyStrip (upperL sql)
    if !((lc "SELECT").isPrefixOf s) then false
    else if forbiddenTokens.any (fun t => hasInfix t s) then false
    else true

/-- Fuelled scanner for `re.sub(r"```(sql)?", "", raw, flags=IGNORECASE)`. -/
def stripFencesF : Nat → List Char → List Char
  | _, [] => []
  | 0, c :: cs => c :: cs
  | fuel+1, c :: cs =>
    if c = bquote then
      match cs with
      | c2 :: c3 :: rest =>
        if c2 = bquote ∧ c3 = bquote then
          if hasPrefixCI (lc "sql") rest then stripFencesF fuel (rest.drop 3)
          else stripFencesF fuel rest
        else c :: stripFencesF fuel (c2 :: c3 :: rest)
      | [c2] => [c, c2]
      | [] => [c]
    else c :: stripFencesF fuel cs

/-- One pass of `re.sub(r"```(sql)?", "", raw, flags=IGNORECASE)`:
remove every fence marker, greedily taking a following `sql`. -/
def stripFences (l : List Char) : List Char := stripFencesF l.length l

/-- The shortest nonempty prefix ending in `;` (lazy `[\s\S]+?;` after its
first mandatory character has been consumed by the caller). -/
def upToSemi : List Char → Option (List Char)
  | [] => none
  | c :: cs => if c = ';' then some [c] else (upToSemi cs).map (fun u => c :: u)

/-- A match of `(SELECT[\s\S]+?;)` anchored at the head of `l`. -/
def selSemiAt (l : List Char) : Option (List Char) :=
  if hasPrefixCI (lc "select") l then
    match l.drop 6 with
    | [] => none
    | c :: cs => (upToSemi cs).map (fun u => l.take 6 ++ c :: u)
  else none

/-- `re.search(r"(SELECT[\s\S]+?;)", l, IGNORECASE)`: leftmost match. -/
def findSelSemi : List Char → Option (List Char)
  | [] => none
  | c :: cs =>
    match selSemiAt (c :: cs) with
    | some m => some m
    | none => findSelSemi cs

/-- A match of `(SELECT[\s\S]+)` anchored at the head of `l`. -/
def selRestAt (l : List Char) : Option (List Char) :=
  if hasPrefixCI (lc "select") l && !(l.drop 6).isEmpty then some l else none

/-- `re.search(r"(SELECT[\s\S]+)", l, IGNORECASE)`: leftmost match. -/
def findSelRest : List Char → Option (List Char)
  | [] => none
  | c :: cs =>
    match selRestAt (c :: cs) with
    | some m => some m
    | none => findSelRest cs

/-- `clean_sql` of `llm_sql_generator1.py`. -/
def clean_sql (raw : List Char) : List Char :=
  if raw.isEmpty then []
  else
    let r := pyStrip (stripFences raw)
    match findSelSemi r with
    | some m => pyStrip m
    | none =>
      match findSelRest r with
      | some m => pyStrip m
      | none => []

/-- A greedy `\s+`: requires one leading whitespace character and consumes the
maximal run, returning the rest. -/
def spaces1 (l : List Char) : Option (List Char) :=
  match l with
  | [] => none
  | c :: cs => if pySpace c then some (cs.dropWhile pySpace) else none

/-- A greedy `\w+`: requires one leading word character and consumes the
maximal run, returning the rest. -/
def words1 (l : List Char) : Option (List Char) :=
  match l with
  | [] => none
  | c :: cs => if isWordChar c then some (cs.dropWhile isWordChar) else none

/-- A match of `FROM\s+\w+` (IGNORECASE) anchored at the head of `l`:
returns the rest of the string after the match. -/
def tryFrom (l : List Char) : Option (List Char) :=
  if hasPrefixCI (lc "from") l then
    match spaces1 (l.drop 4) with
    | none => none
    | some r2 => words1 r2
  else none

/-- A match of `WHERE\s+\w+` (IGNORECASE) anchored at the head of `l`. -/
def tryWhere (l : List Char) : Option (List Char) :=
  if hasPrefixCI (lc "where") l then
    match spaces1 (l.drop 5) with
    | none => none
    | some r2 => words1 r2
  else none

/-- Replacement text of the table-name rewrite. -/
def fromRepl : List Char := lc "FROM ticketdetails"

/-- Replacement text of the WHERE-column rewrite. -/
def whereRepl : List Char := lc "WHERE TicketStatus"

/-- Fuelled generic model of `re.sub(pattern, repl, l)`: scan left to right,
replacing each leftmost non-overlapping match (`t` matches a pattern at the
head and returns the rest after the match). -/
def scanSub (t : List Char → Option (List Char)) (repl : List Char) :
    Nat → List Char → List Char
  | _, [] => []
  | 0, c :: cs => c :: cs
  | fuel+1, c :: cs =>
    match t (c :: cs) with
    | some rest => repl ++ scanSub t repl fuel rest
    | none => c :: scanSub t repl fuel cs

/-- `re.sub` with enough fuel. -/
def runSub (t : List Char → Option (List Char)) (repl : List Char)
    (l : List Char) : List Char :=
  scanSub t repl l.length l

/-- `re.sub(r"FROM\s+\w+", "FROM ticketdetails", sql, flags=IGNORECASE)`. -/
def subFrom : List Char → List Char := runSub tryFrom fromRepl

/-- `re.sub(r"WHERE\s+\w+", "WHERE TicketStatus", sql, flags=IGNORECASE)`. -/
def subWhere : List Char → List Char := runSub tryWhere whereRepl

/-- A match of `['\"]`: requires one leading quote character. -/
def quote1 (l : List Char) : Option (List Char) :=
  match l with
  | [] => none
  | d :: ds => if d = squote ∨ d = dquote then some ds else none

/-- A match of `['\"]key['\"]` (IGNORECASE) anchored at the head of `l`;
`key` is given lowercase. -/
def tryPhrase (key : List Char) (l : List Char) : Option (List Char) :=
  match l with
  | [] => none
  | c :: cs =>
    if (c = squote ∨ c = dquote) ∧ hasPrefixCI key cs then
      quote1 (cs.drop key.length)
    else none

/-- The replacement `'val'` the status rewrite inserts. -/
def phraseRepl (val : List Char) : List Char := squote :: (val ++ [squote])

/-- `re.sub(rf"['\"]key['\"]", f"'val'", sql, flags=IGNORECASE)`. -/
def subPhrase (key val : List Char) : List Char → List Char :=
  runSub (tryPhrase key) (phraseRepl val)

/-- The `STATUS_MAP` passes of `repair_sql`, applied in dict order. -/
def statusSub (l : List Char) : List Char :=
  subPhrase (lc "assign to group") (lc "Assign to Group")
    (subPhrase (lc "in progress") (lc "In Progress")
      (subPhrase (lc "open") (lc "New")
        (subPhrase (lc "pending") (lc "New")
          (subPhrase (lc "new case") (lc "New")
            (subPhrase (lc "new incident") (lc "New") l)))))

/-- The row-cap step of `repair_sql`: append `LIMIT 50` when the lower-cased
statement contains neither `count(` nor `limit`, after stripping trailing
semicolons. -/
def limitStage (s3 : List Char) : List Char :=
  if !(hasInfix (lc "count(") (lowerL s3)) && !(hasInfix (lc "limit") (lowerL s3))
  then rstripSemi s3 ++ lc " LIMIT 50"
  else s3

/-- The terminator step of `repair_sql`: append `;` unless the stripped
statement already ends with one. -/
def semiStage (s4 : List Char) : List Char :=
  if (pyStrip s4).getLast? == some ';' then s4 else s4 ++ [';']

/-- `repair_sql` of `llm_sql_generator1.py`: table rewrite, WHERE-column
rewrite, status-value rewrites, row cap, terminator. -/
def repair_sql (sql : List Char) : List Char :=
  if sql.isEmpty then sql
  else semiStage (limitStage (statusSub (subWhere (subFrom sql))))

/-- A match of `inc[-\s]?(\d+)` anchored at the head of `l` (already
lowercase); returns the digit group. -/
def incAt (l : List Char) : Option (List Char) :=
  match l with
  | 'i' :: 'n' :: 'c' :: rest =>
    match rest with
    | [] => none
    | d0 :: ds =>
      if d0 = '-' ∨ pySpace d0 then
        match ds with
        | [] => none
        | e :: es => if e.isDigit then some (e :: es.takeWhile Char.isDigit) else none
      else if d0.isDigit then some (d0 :: ds.takeWhile Char.isDigit)
      else none
  | _ => none

/-- `re.search(r"inc[-\s]?(\d+)", q)`: leftmost match's digit group. -/
def findInc : List Char → Option (List Char)
  | [] => none
  | c :: cs =>
    match incAt (c :: cs) with
    | some d => some d
    | none => findInc cs

/-- The fixed statement of the "pending count" intent shortcut. -/
def fastT1 : List Char :=
  lc "SELECT COUNT(*) AS total_pending FROM ticketdetails WHERE TicketStatus=\x27Pending\x27;"

/-- The fixed statement of the "open list" intent shortcut. -/
def fastT2 : List Char :=
  lc "SELECT IncidentID, TicketStatus, AssignPerson FROM ticketdetails WHERE TicketStatus IN (\x27Open\x27,\x27In Progress\x27,\x27Assign to Group\x27) ORDER BY id DESC LIMIT 50;"

/-- The fixed statement of the "latest list" intent shortcut. -/
def fastT3 : List Char :=
  lc "SELECT IncidentID, TicketStatus, TicketSubmittedDateTime FROM ticketdetails ORDER BY id DESC LIMIT 50;"

/-- The fixed statement of the "new case list" intent shortcut. -/
def fastT4 : List Char :=
  lc "SELECT IncidentID, TicketStatus, TicketSubmittedDateTime FROM ticketdetails WHERE TicketStatus=\x27New\x27 ORDER BY id DESC LIMIT 50;"

/-- The parametric statement of the incident-ID lookup shortcut. -/
def incTemplate (inc : List Char) : List Char :=
  lc "SELECT TicketStatus FROM ticketdetails WHERE IncidentID=\x27" ++ inc ++ lc "\x27;"

/-- The counting keywords of the "pending count" intent. -/
def countWords : List (List Char) := [lc "how many", lc "berapa", lc "count", lc "jumlah"]

/-- `fast_intent` of `llm_sql_generator1.py`. -/
def fast_intent (question : List Char) : Option (List Char) :=
  let q := lowerL question
  if (hasInfix (lc "pending") q || hasInfix (lc "belum tutup") q) &&
      countWords.any (fun w => hasInfix w q) then some fastT1
  else if [lc "open", lc "belum tutup", lc "masih buka"].any (fun w => hasInfix w q) then
    some fastT2
  else if [lc "latest", lc "terkini", lc "baru"].any (fun w => hasInfix w q) then
    some fastT3
  else if [lc "new case", lc "new cases", lc "kes baru"].any (fun w => hasInfix w q) then
    some fastT4
  else
    match findInc q with
    | some inc => some (incTemplate inc)
    | none => none

/-- `build_prompt` of `llm_sql_generator1.py` (with `TABLE_NAME` inlined). -/
def build_prompt (question : List Char) : List Char :=
  lc "\nYou are a MySQL expert.\nReturn ONLY ONE valid SELECT query.\nSTRICT RULES:\n- SELECT only\n- No explanation\n- No comments\n- No markdown\n- Use table ticketdetails\n- Use LIMIT 50 unless COUNT\n\nUser Question:\n" ++ question ++ lc "\n\nSQL:\n"

/-- `call_llm`: the external service is an oracle; every failure mode of the
wrapped request collapses to the empty response, and a response is stripped. -/
def call_llm (service : List Char → List Char) (prompt : List Char) : List Char :=
  pyStrip (service prompt)

/-- One un-cached evaluation of `generate_sql` of `llm_sql_generator1.py`.
The second component records whether the external service was invoked. -/
def generate_sql (service : List Char → List Char) (question : List Char) :
    Option (List Char) × Bool :=
  match fast_intent question with
  | some fast => (some (pyStrip fast), false)
  | none =>
    let raw := call_llm service (build_prompt question)
    if raw.isEmpty then (none, true)
    else
      let sql := clean_sql raw
      if valid_sql sql then (some (pyStrip (repair_sql sql)), true) else (none, true)

/-- The `lru_cache(maxsize=200)` wrapper around `generate_sql`: the cache is a
recency-ordered association list; a hit refreshes recency and makes no
external call, a miss computes, inserts in front and evicts beyond 200. -/
def generate_sql_cached (service : List Char → List Char)
    (cache : List (List Char × Option (List Char))) (question : List Char) :
    Option (List Char) × List (List Char × Option (List Char)) × Bool :=
  match cache.find? (fun e => e.1 == question) with
  | some e => (e.2, (question, e.2) :: cache.eraseP (fun e2 => e2.1 == question), false)
  | none =>
    let r := generate_sql service question
    (r.1, ((question, r.1) :: cache).take 200, r.2)

/-- No forbidden token occurs in `u` (`u` is compared upper-cased by the
validator, so lemmas apply this to upper-cased strings). -/
def noTok (u : List Char) : Prop := ∀ tok ∈ forbiddenTokens, ¬ tok <:+: u

/-- The safety invariant of the spec: begins with `SELECT` (case-insensitive,
ignoring surrounding whitespace) and contains no forbidden token and no
comment-start `--` anywhere (case-insensitive). -/
def safeStatement (s : List Char) : Prop :=
  (lc "SELECT") <+: pyStrip (upperL s) ∧ noTok (upperL s)

instance (u : List Char) : Decidable (noTok u) :=
  inferInstanceAs (Decidable (∀ tok ∈ forbiddenTokens, ¬ tok <:+: u))

instance (s : List Char) : Decidable (safeStatement s) :=
  inferInstanceAs (Decidable (_ ∧ _))

/-! ### General lemmas -/

theorem spaces1_length {l r : List Char} (h : spaces1 l = some r) :
    r.length < l.length := by
  match l with
  | [] => simp [spaces1] at h
  | c :: cs =>
    simp only [spaces1] at h
    split at h
    · have : r = cs.dropWhile pySpace := by simpa using h.symm
      subst this
      have := List.Sublist.length_le (List.dropWhile_sublist (p := pySpace) (l := cs))
      simp only [List.length_cons]
      omega
    · cases h

theorem words1_length {l r : List Char} (h : words1 l = some r) :
    r.length < l.length := by
  match l with
  | [] => simp [words1] at h
  | c :: cs =>
    simp only [words1] at h
    split at h
    · have : r = cs.dropWhile isWordChar := by simpa using h.symm
      subst this
      have := List.Sublist.length_le (List.dropWhile_sublist (p := isWordChar) (l := cs))
      simp only [List.length_cons]
      omega
    · cases h

theorem tryFrom_length {l r : List Char} (h : tryFrom l = some r) :
    r.length < l.length := by
  unfold tryFrom at h
  split at h
  · cases hm : spaces1 (l.drop 4) with
    | none => rw [hm] at h; cases h
    | some r2 =>
      rw [hm] at h
      have h1 := spaces1_length hm
      have h2 := words1_length h
      have h3 : (l.drop 4).length = l.length - 4 := by simp
      omega
  · cases h

theorem tryWhere_length {l r : List Char} (h : tryWhere l = some r) :
    r.length < l.length := by
  unfold tryWhere at h
  split at h
  · cases hm : spaces1 (l.drop 5) with
    | none => rw [hm] at h; cases h
    | some r2 =>
      rw [hm] at h
      have h1 := spaces1_length hm
      have h2 := words1_length h
      have h3 : (l.drop 5).length = l.length - 5 := by simp
      omega
  · cases h

theorem scanSub_congr {t : List Char → Option (List Char)} {repl : List Char}
    (hlen : ∀ {l r : List Char}, t l = some r → r.length < l.length) :
    ∀ {f g : Nat} {l : List Char}, l.length ≤ f → l.length ≤ g →
      scanSub t repl f l = scanSub t repl g l := by
  intro f
  induction f with
  | zero =>
    intro g l hf _
    have : l = [] := List.eq_nil_of_length_eq_zero (Nat.le_zero.mp hf)
    subst this
    cases g <;> rfl
  | succ f ih =>
    intro g l hf hg
    match l with
    | [] => cases g <;> rfl
    | c :: cs =>
      match g with
      | 0 => exact absurd hg (by simp)
      | g+1 =>
        cases h : t (c :: cs) with
        | some rest =>
          have hr := hlen h
          simp only [List.length_cons] at hf hg hr
          simp only [scanSub, h]
          exact congrArg (repl ++ ·) (ih (g := g) (l := rest) (by omega) (by omega))
        | none =>
          simp only [List.length_cons] at hf hg
          simp only [scanSub, h]
          exact congrArg (c :: ·) (ih (g := g) (l := cs) (by omega) (by omega))

theorem runSub_nil {t : List Char → Option (List Char)} {repl : List Char} :
    runSub t repl [] = [] := rfl

theorem runSub_cons_some {t : List Char → Option (List Char)} {repl : List Char}
    {c : Char} {cs rest : List Char}
    (hlen : ∀ {l r : List Char}, t l = some r → r.length < l.length)
    (h : t (c :: cs) = some rest) :
    runSub t repl (c :: cs) = repl ++ runSub t repl rest := by
  have hr := hlen h
  simp only [List.length_cons] at hr
  unfold runSub
  simp only [List.length_cons, scanSub, h]
  rw [scanSub_congr hlen (by omega) (le_refl _)]

theorem runSub_cons_none {t : List Char → Option (List Char)} {repl : List Char}
    {c : Char} {cs : List Char} (h : t (c :: cs) = none) :
    runSub t repl (c :: cs) = c :: runSub t repl cs := by
  unfold runSub
  simp only [List.length_cons, scanSub, h]

theorem quote1_length {l r : List Char} (h : quote1 l = some r) :
    r.length < l.length := by
  match l with
  | [] => simp [quote1] at h
  | d :: ds =>
    simp only [quote1] at h
    split at h
    · have hr : r = ds := by simpa using h.symm
      subst hr
      simp
    · cases h

theorem tryPhrase_length {key l r : List Char} (h : tryPhrase key l = some r) :
    r.length < l.length := by
  match l with
  | [] => simp [tryPhrase] at h
  | c :: cs =>
    simp only [tryPhrase] at h
    split at h
    · have h1 := quote1_length h
      have h2 : (cs.drop key.length).length ≤ cs.length := by
        simp
      simp only [List.length_cons]
      omega
    · cases h


theorem pyUpper_eq_inv {c d : Char} (h : pyUpper c = d) :
    c = d ∨ (d, c) ∈ lowerPairs := by
  unfold pyUpper at h
  cases hf : lowerPairs.find? (fun p => p.2 == c) with
  | none => rw [hf] at h; simp at h; exact Or.inl h
  | some p =>
    rw [hf] at h
    simp at h
    have hp := List.mem_of_find?_eq_some hf
    have hc : p.2 = c := by simpa using List.find?_some hf
    right
    have : (d, c) = p := by
      cases p with
      | mk p1 p2 => simp at hc h ⊢; exact ⟨h.symm, hc.symm⟩
    rw [this]
    exact hp

theorem pyLower_eq_inv {c d : Char} (h : pyLower c = d) :
    c = d ∨ (c, d) ∈ lowerPairs := by
  unfold pyLower at h
  cases hf : lowerPairs.find? (fun p => p.1 == c) with
  | none => rw [hf] at h; simp at h; exact Or.inl h
  | some p =>
    rw [hf] at h
    simp at h
    have hp := List.mem_of_find?_eq_some hf
    have hc : p.1 = c := by simpa using List.find?_some hf
    right
    have : (c, d) = p := by
      cases p with
      | mk p1 p2 => simp at hc h ⊢; exact ⟨hc.symm, h.symm⟩
    rw [this]
    exact hp

theorem pySpace_pyUpper (c : Char) : pySpace (pyUpper c) = pySpace c := by
  rcases pyUpper_eq_inv (rfl : pyUpper c = pyUpper c) with he | hm
  · rw [← he]
  · have hall : ∀ p ∈ lowerPairs, pySpace p.1 = false ∧ pySpace p.2 = false := by decide
    have h2 := hall _ hm
    simp only at h2
    rw [h2.1, h2.2]

theorem pySpace_pyLower (c : Char) : pySpace (pyLower c) = pySpace c := by
  rcases pyLower_eq_inv (rfl : pyLower c = pyLower c) with he | hm
  · rw [← he]
  · have hall : ∀ p ∈ lowerPairs, pySpace p.1 = false ∧ pySpace p.2 = false := by decide
    have h2 := hall _ hm
    simp only at h2
    rw [h2.2, h2.1]

theorem hasInfix_iff {pat l : List Char} : hasInfix pat l = true ↔ pat <:+: l := by
  induction l with
  | nil =>
    simp only [hasInfix, List.isEmpty_iff]
    constructor
    · intro h; rw [h]
    · intro h; exact List.eq_nil_of_infix_nil h
  | cons c cs ih =>
    simp only [hasInfix, Bool.or_eq_true, List.isPrefixOf_iff_prefix, ih,
      List.infix_cons_iff]

theorem hasPrefixCI_iff {pat l : List Char} :
    hasPrefixCI pat l = true ↔ pat <+: lowerL l := by
  induction pat generalizing l with
  | nil => simp [hasPrefixCI]
  | cons p ps ih =>
    cases l with
    | nil => simp [hasPrefixCI, lowerL]
    | cons c cs =>
      simp only [hasPrefixCI, Bool.and_eq_true, beq_iff_eq, lowerL, List.map_cons,
        List.cons_prefix_cons, ih]
      constructor
      · rintro ⟨h1, h2⟩; exact ⟨h1.symm, h2⟩
      · rintro ⟨h1, h2⟩; exact ⟨h1.symm, h2⟩

theorem inf_split {α : Type} {tok x y : List α} (h : tok <:+: x ++ y) :
    tok <:+: x ∨ tok <:+: y ∨
      ∃ t1 t2, tok = t1 ++ t2 ∧ t1 ≠ [] ∧ t2 ≠ [] ∧ t1 <:+ x ∧ t2 <+: y := by
  obtain ⟨s, t, hst⟩ := h
  have happ : s ++ (tok ++ t) = x ++ y := by
    simpa [List.append_assoc] using hst
  by_cases hsx : x.length ≤ s.length
  · have h1 : (x ++ y).take x.length = x := List.take_left x y
    have h2 : (s ++ (tok ++ t)).take x.length =
        s.take x.length ++ (tok ++ t).take (x.length - s.length) :=
      List.take_append_eq_append_take
    rw [happ, h1] at h2
    have hz : x.length - s.length = 0 := by omega
    rw [hz] at h2
    simp at h2
    have hs : s = x ++ s.drop x.length := by
      conv_lhs => rw [← List.take_append_drop x.length s, ← h2]
    rw [hs] at happ
    rw [List.append_assoc] at happ
    have hy := List.append_cancel_left happ
    refine Or.inr (Or.inl ⟨s.drop x.length, t, ?_⟩)
    rw [List.append_assoc]
    exact hy
  · push_neg at hsx
    have h1 : (x ++ y).take s.length = x.take s.length := by
      rw [List.take_append_eq_append_take]
      have hz : s.length - x.length = 0 := by omega
      rw [hz]
      simp
    have h2 : (s ++ (tok ++ t)).take s.length = s := List.take_left s (tok ++ t)
    rw [happ, h1] at h2
    have hx : x = s ++ x.drop s.length := by
      conv_lhs => rw [← List.take_append_drop s.length x, h2]
    have hx'ne : x.drop s.length ≠ [] := by
      have : (x.drop s.length).length = x.length - s.length := by simp
      intro hc
      rw [hc] at this
      simp at this
      omega
    have hty : tok ++ t = x.drop s.length ++ y := by
      rw [hx] at happ
      rw [List.append_assoc] at happ
      exact List.append_cancel_left happ
    by_cases htx : tok.length ≤ (x.drop s.length).length
    · have htk : tok = (x.drop s.length ++ y).take tok.length := by
        rw [← hty]
        simp [List.take_left']
      rw [List.take_append_eq_append_take] at htk
      have hz : tok.length - (x.drop s.length).length = 0 := by omega
      rw [hz] at htk
      simp at htk
      have hpref : tok <+: x.drop s.length := by
        rw [htk]
        exact List.take_prefix _ _
      have hsuf : x.drop s.length <:+ x := ⟨s, hx.symm⟩
      exact Or.inl (List.IsInfix.trans hpref.isInfix hsuf.isInfix)
    · push_neg at htx
      have htk : tok = (x.drop s.length ++ y).take tok.length := by
        rw [← hty]
        simp [List.take_left']
      rw [List.take_append_eq_append_take] at htk
      have hfull : (x.drop s.length).take tok.length = x.drop s.length := by
        apply List.take_of_length_le
        omega
      rw [hfull] at htk
      refine Or.inr (Or.inr ⟨x.drop s.length, y.take (tok.length - (x.drop s.length).length),
        htk, hx'ne, ?_, ⟨s, hx.symm⟩, List.take_prefix _ _⟩)
      intro hc
      rw [hc] at htk
      simp at htk
      have hlen2 := congrArg List.length htk
      simp only [List.length_append, List.length_nil, List.length_drop] at hlen2
      simp only [List.length_drop] at htx
      omega

theorem noTok_mono {u v : List Char} (h : u <:+: v) (hv : noTok v) : noTok u :=
  fun tok htok hinf => hv tok htok (hinf.trans h)

theorem noTok_replace {U M R B : List Char}
    (hBne : B ≠ [])
    (hA : ∀ tok ∈ forbiddenTokens, ¬ tok <:+: B)
    (hB : ∀ tok ∈ forbiddenTokens, ∀ d ∈ B.take 1, d ∉ tok)
    (hC : ∀ tok ∈ forbiddenTokens, ∀ t1 t2, tok = t1 ++ t2 → t1 ≠ [] → t2 ≠ [] →
      ¬ t1 <:+ B)
    (h : noTok (U ++ M ++ R)) : noTok (U ++ B ++ R) := by
  intro tok htok hinf
  rw [List.append_assoc] at hinf
  have hU : U <:+: U ++ M ++ R := by
    rw [List.append_assoc]
    exact (List.prefix_append U (M ++ R)).isInfix
  have hRs : R <:+ U ++ M ++ R := ⟨U ++ M, rfl⟩
  have hR : R <:+: U ++ M ++ R := hRs.isInfix
  rcases inf_split hinf with h1 | h2 | ⟨t1, t2, hsplit, ht1ne, ht2ne, ht1, ht2⟩
  · exact h tok htok (h1.trans hU)
  · rcases inf_split h2 with h3 | h4 | ⟨t1, t2, hs, h1ne, h2ne, hs1, _⟩
    · exact hA tok htok h3
    · exact h tok htok (h4.trans hR)
    · exact hC tok htok t1 t2 hs h1ne h2ne hs1
  · have hhead : t2.head ht2ne ∈ B.take 1 := by
      obtain ⟨w, hw⟩ := ht2
      cases B with
      | nil => exact absurd rfl hBne
      | cons b bs =>
        cases t2 with
        | nil => exact absurd rfl ht2ne
        | cons a as =>
          have hab : a = b := by
            have := hw
            simp only [List.cons_append] at this
            exact (List.cons.injEq a _ b _).mp this |>.1
          simp [hab]
    have hmem : t2.head ht2ne ∈ tok := by
      rw [hsplit]
      exact List.mem_append.mpr (Or.inr (List.head_mem ht2ne))
    exact hB tok htok _ hhead hmem

theorem runSub_noTok {t : List Char → Option (List Char)} {repl : List Char}
    (hlen : ∀ {l r : List Char}, t l = some r → r.length < l.length)
    (hdec : ∀ {l r : List Char}, t l = some r → ∃ m, l = m ++ r)
    (hBne : upperL repl ≠ [])
    (hA : ∀ tok ∈ forbiddenTokens, ¬ tok <:+: upperL repl)
    (hB : ∀ tok ∈ forbiddenTokens, ∀ d ∈ (upperL repl).take 1, d ∉ tok)
    (hC : ∀ tok ∈ forbiddenTokens, ∀ t1 t2, tok = t1 ++ t2 → t1 ≠ [] → t2 ≠ [] →
      ¬ t1 <:+ upperL repl) :
    ∀ (n : Nat) (s u : List Char), s.length ≤ n →
      noTok (upperL (u ++ s)) → noTok (upperL (u ++ runSub t repl s)) := by
  intro n
  induction n with
  | zero =>
    intro s u hsn h
    have : s = [] := List.eq_nil_of_length_eq_zero (Nat.le_zero.mp hsn)
    subst this
    simpa [runSub_nil] using h
  | succ n ih =>
    intro s u hsn h
    match s with
    | [] => simpa [runSub_nil] using h
    | c :: cs =>
      cases hm : t (c :: cs) with
      | some rest =>
        rw [runSub_cons_some hlen hm]
        obtain ⟨m, hmm⟩ := hdec hm
        rw [hmm] at h
        have h' : noTok (upperL u ++ upperL m ++ upperL rest) := by
          have he : upperL (u ++ (m ++ rest)) = upperL u ++ upperL m ++ upperL rest := by
            simp [upperL, List.append_assoc]
          rwa [he] at h
        have h2 := noTok_replace hBne hA hB hC h'
        have h3 : noTok (upperL ((u ++ repl) ++ rest)) := by
          have he : upperL ((u ++ repl) ++ rest) = upperL u ++ upperL repl ++ upperL rest := by
            simp [upperL]
          rwa [he]
        have hrl : rest.length ≤ n := by
          have := hlen hm
          simp only [List.length_cons] at this hsn
          omega
        have h4 := ih rest (u ++ repl) hrl h3
        have he : upperL (u ++ (repl ++ runSub t repl rest)) =
            upperL ((u ++ repl) ++ runSub t repl rest) := by
          simp [upperL, List.append_assoc]
        rwa [he]
      | none =>
        rw [runSub_cons_none hm]
        have h0 : noTok (upperL ((u ++ [c]) ++ cs)) := by
          have he : (u ++ [c]) ++ cs = u ++ c :: cs := by simp
          rwa [he]
        have hcl : cs.length ≤ n := by
          simp only [List.length_cons] at hsn
          omega
        have h4 := ih cs (u ++ [c]) hcl h0
        have he : u ++ c :: runSub t repl cs = (u ++ [c]) ++ runSub t repl cs := by simp
        rwa [he]

theorem splitCheck {B : List Char}
    (hfin : ∀ tok ∈ forbiddenTokens, ∀ i ∈ List.range tok.length, i ≠ 0 →
      ¬ tok.take i <:+ B) :
    ∀ tok ∈ forbiddenTokens, ∀ t1 t2, tok = t1 ++ t2 → t1 ≠ [] → t2 ≠ [] →
      ¬ t1 <:+ B := by
  intro tok htok t1 t2 hs h1 h2 hsuf
  have ht1 : t1 = tok.take t1.length := by
    rw [hs, List.take_left' rfl]
  have hlen : t1.length < tok.length := by
    rw [hs, List.length_append]
    have := List.length_pos.mpr h2
    omega
  have hi : t1.length ∈ List.range tok.length := List.mem_range.mpr hlen
  have hne : t1.length ≠ 0 := by
    have := List.length_pos.mpr h1
    omega
  apply hfin tok htok t1.length hi hne
  rw [← ht1]
  exact hsuf

theorem noTok_append {A B : List Char}
    (hBne : B ≠ [])
    (hA : ∀ tok ∈ forbiddenTokens, ¬ tok <:+: B)
    (hB : ∀ tok ∈ forbiddenTokens, ∀ d ∈ B.take 1, d ∉ tok)
    (hfin : ∀ tok ∈ forbiddenTokens, ∀ i ∈ List.range tok.length, i ≠ 0 →
      ¬ tok.take i <:+ B)
    (h : noTok A) : noTok (A ++ B) := by
  have h0 : noTok (A ++ [] ++ []) := by simpa using h
  have h1 := noTok_replace hBne hA hB (splitCheck hfin) h0
  simpa using h1

theorem spaces1_dec {l r : List Char} (h : spaces1 l = some r) : ∃ m, l = m ++ r := by
  match l with
  | [] => simp [spaces1] at h
  | c :: cs =>
    simp only [spaces1] at h
    split at h
    · have hr : r = cs.dropWhile pySpace := by simpa using h.symm
      exact ⟨c :: cs.takeWhile pySpace, by rw [hr]; simp [List.takeWhile_append_dropWhile]⟩
    · cases h

theorem words1_dec {l r : List Char} (h : words1 l = some r) : ∃ m, l = m ++ r := by
  match l with
  | [] => simp [words1] at h
  | c :: cs =>
    simp only [words1] at h
    split at h
    · have hr : r = cs.dropWhile isWordChar := by simpa using h.symm
      exact ⟨c :: cs.takeWhile isWordChar, by rw [hr]; simp [List.takeWhile_append_dropWhile]⟩
    · cases h

theorem tryFrom_dec {l r : List Char} (h : tryFrom l = some r) : ∃ m, l = m ++ r := by
  unfold tryFrom at h
  split at h
  · cases hm : spaces1 (l.drop 4) with
    | none => rw [hm] at h; cases h
    | some r2 =>
      rw [hm] at h
      obtain ⟨m1, hm1⟩ := spaces1_dec hm
      obtain ⟨m2, hm2⟩ := words1_dec h
      refine ⟨l.take 4 ++ (m1 ++ m2), ?_⟩
      conv_lhs => rw [← List.take_append_drop 4 l, hm1, hm2]
      simp [List.append_assoc]
  · cases h

theorem tryWhere_dec {l r : List Char} (h : tryWhere l = some r) : ∃ m, l = m ++ r := by
  unfold tryWhere at h
  split at h
  · cases hm : spaces1 (l.drop 5) with
    | none => rw [hm] at h; cases h
    | some r2 =>
      rw [hm] at h
      obtain ⟨m1, hm1⟩ := spaces1_dec hm
      obtain ⟨m2, hm2⟩ := words1_dec h
      refine ⟨l.take 5 ++ (m1 ++ m2), ?_⟩
      conv_lhs => rw [← List.take_append_drop 5 l, hm1, hm2]
      simp [List.append_assoc]
  · cases h

theorem quote1_dec {l r : List Char} (h : quote1 l = some r) : ∃ m, l = m ++ r := by
  match l with
  | [] => simp [quote1] at h
  | d :: ds =>
    simp only [quote1] at h
    split at h
    · have hr : r = ds := by simpa using h.symm
      exact ⟨[d], by rw [hr]; simp⟩
    · cases h

theorem tryPhrase_dec {key l r : List Char} (h : tryPhrase key l = some r) :
    ∃ m, l = m ++ r := by
  match l with
  | [] => simp [tryPhrase] at h
  | c :: cs =>
    simp only [tryPhrase] at h
    split at h
    · obtain ⟨m0, hm0⟩ := quote1_dec h
      refine ⟨c :: (cs.take key.length ++ m0), ?_⟩
      conv_lhs => rw [← List.take_append_drop key.length cs, hm0]
      simp [List.append_assoc]
    · cases h

theorem subFrom_noTok {s : List Char} (h : noTok (upperL s)) :
    noTok (upperL (subFrom s)) := by
  have h0 : noTok (upperL ([] ++ s)) := by simpa using h
  have h1 := @runSub_noTok tryFrom fromRepl
    (fun hx => tryFrom_length hx) (fun hx => tryFrom_dec hx)
    (by decide) (by decide) (by decide) (splitCheck (by decide))
    s.length s [] (le_refl _) h0
  simpa [subFrom] using h1

theorem subWhere_noTok {s : List Char} (h : noTok (upperL s)) :
    noTok (upperL (subWhere s)) := by
  have h0 : noTok (upperL ([] ++ s)) := by simpa using h
  have h1 := @runSub_noTok tryWhere whereRepl
    (fun hx => tryWhere_length hx) (fun hx => tryWhere_dec hx)
    (by decide) (by decide) (by decide) (splitCheck (by decide))
    s.length s [] (le_refl _) h0
  simpa [subWhere] using h1

theorem subPhrase_noTok {key val s : List Char}
    (hBne : upperL (phraseRepl val) ≠ [])
    (hA : ∀ tok ∈ forbiddenTokens, ¬ tok <:+: upperL (phraseRepl val))
    (hB : ∀ tok ∈ forbiddenTokens, ∀ d ∈ (upperL (phraseRepl val)).take 1, d ∉ tok)
    (hfin : ∀ tok ∈ forbiddenTokens, ∀ i ∈ List.range tok.length, i ≠ 0 →
      ¬ tok.take i <:+ upperL (phraseRepl val))
    (h : noTok (upperL s)) : noTok (upperL (subPhrase key val s)) := by
  have h0 : noTok (upperL ([] ++ s)) := by simpa using h
  have h1 := @runSub_noTok (tryPhrase key) (phraseRepl val)
    (fun hx => tryPhrase_length hx) (fun hx => tryPhrase_dec hx)
    hBne hA hB (splitCheck hfin)
    s.length s [] (le_refl _) h0
  simpa [subPhrase] using h1

theorem statusSub_noTok {s : List Char} (h : noTok (upperL s)) :
    noTok (upperL (statusSub s)) := by
  unfold statusSub
  apply subPhrase_noTok (by decide) (by decide) (by decide) (by decide)
  apply subPhrase_noTok (by decide) (by decide) (by decide) (by decide)
  apply subPhrase_noTok (by decide) (by decide) (by decide) (by decide)
  apply subPhrase_noTok (by decide) (by decide) (by decide) (by decide)
  apply subPhrase_noTok (by decide) (by decide) (by decide) (by decide)
  apply subPhrase_noTok (by decide) (by decide) (by decide) (by decide)
  exact h

theorem tryFrom_none_head {c : Char} {cs : List Char} (h : pyLower c ≠ 'f') :
    tryFrom (c :: cs) = none := by
  have hpre : hasPrefixCI (lc "from") (c :: cs) = false := by
    have he : lc "from" = 'f' :: lc "rom" := rfl
    rw [he]
    simp [hasPrefixCI, h]
  unfold tryFrom
  rw [hpre]
  simp

theorem tryWhere_none_head {c : Char} {cs : List Char} (h : pyLower c ≠ 'w') :
    tryWhere (c :: cs) = none := by
  have hpre : hasPrefixCI (lc "where") (c :: cs) = false := by
    have he : lc "where" = 'w' :: lc "here" := rfl
    rw [he]
    simp [hasPrefixCI, h]
  unfold tryWhere
  rw [hpre]
  simp

theorem tryPhrase_none_head {key : List Char} {c : Char} {cs : List Char}
    (h1 : c ≠ squote) (h2 : c ≠ dquote) : tryPhrase key (c :: cs) = none := by
  simp only [tryPhrase]
  rw [if_neg]
  rintro ⟨hq, _⟩
  rcases hq with hq | hq
  · exact h1 hq
  · exact h2 hq

theorem runSub_pass {t : List Char → Option (List Char)} {repl : List Char}
    (s : List Char) :
    ∀ (u : List Char),
      (∀ (c : Char) (cs : List Char), c ∈ u → t (c :: cs) = none) →
      runSub t repl (u ++ s) = u ++ runSub t repl s := by
  intro u
  induction u with
  | nil => intro _; simp
  | cons c u' ih =>
    intro hnone
    have h1 : t (c :: (u' ++ s)) = none := hnone c _ (by simp)
    rw [List.cons_append, runSub_cons_none h1,
      ih (fun c' cs' hc' => hnone c' cs' (List.mem_cons_of_mem _ hc'))]
    simp

theorem subFrom_pass {u s : List Char} (h : ∀ c ∈ u, pyLower c ≠ 'f') :
    subFrom (u ++ s) = u ++ subFrom s :=
  runSub_pass s u (fun c _ hc => tryFrom_none_head (h c hc))

theorem subWhere_pass {u s : List Char} (h : ∀ c ∈ u, pyLower c ≠ 'w') :
    subWhere (u ++ s) = u ++ subWhere s :=
  runSub_pass s u (fun c _ hc => tryWhere_none_head (h c hc))

theorem subPhrase_pass {key val u s : List Char}
    (h : ∀ c ∈ u, c ≠ squote ∧ c ≠ dquote) :
    subPhrase key val (u ++ s) = u ++ subPhrase key val s :=
  runSub_pass s u (fun c _ hc => tryPhrase_none_head (h c hc).1 (h c hc).2)

theorem statusSub_pass {u s : List Char}
    (h : ∀ c ∈ u, c ≠ squote ∧ c ≠ dquote) :
    statusSub (u ++ s) = u ++ statusSub s := by
  unfold statusSub
  rw [subPhrase_pass h, subPhrase_pass h, subPhrase_pass h, subPhrase_pass h,
    subPhrase_pass h, subPhrase_pass h]

theorem selChar_props {x : Char} (h : pyUpper x ∈ lc "SELECT") :
    pyLower x ≠ 'f' ∧ pyLower x ≠ 'w' ∧ x ≠ squote ∧ x ≠ dquote ∧
      pySpace x = false ∧ x ≠ ';' := by
  rcases pyUpper_eq_inv (rfl : pyUpper x = pyUpper x) with he | hm
  · rw [← he] at h
    have hall : ∀ d ∈ lc "SELECT", pyLower d ≠ 'f' ∧ pyLower d ≠ 'w' ∧ d ≠ squote ∧
        d ≠ dquote ∧ pySpace d = false ∧ d ≠ ';' := by decide
    exact hall x h
  · have hall : ∀ p ∈ lowerPairs, p.1 ∈ lc "SELECT" →
        (pyLower p.2 ≠ 'f' ∧ pyLower p.2 ≠ 'w' ∧ p.2 ≠ squote ∧ p.2 ≠ dquote ∧
          pySpace p.2 = false ∧ p.2 ≠ ';') := by decide
    exact hall _ hm h

theorem spaceChar_props {x : Char} (h : pySpace x = true) :
    pyLower x ≠ 'f' ∧ pyLower x ≠ 'w' ∧ x ≠ squote ∧ x ≠ dquote := by
  simp only [pySpace, Bool.or_eq_true, beq_iff_eq] at h
  rcases h with ((((h|h)|h)|h)|h)|h <;> subst h <;>
    exact ⟨by decide, by decide, by decide, by decide⟩

theorem pyStrip_inf (l : List Char) : pyStrip l <:+: l := by
  unfold pyStrip
  have h1 : List.rdropWhile pySpace (l.dropWhile pySpace) <+: l.dropWhile pySpace :=
    List.rdropWhile_prefix _ _
  have h2 : l.dropWhile pySpace <:+ l := List.dropWhile_suffix _
  exact h1.isInfix.trans h2.isInfix

theorem inf_dropWhile {p : Char → Bool} {tok : List Char}
    (hne : tok ≠ []) (hns : ∀ c ∈ tok, p c = false) :
    ∀ {l : List Char}, tok <:+: l → tok <:+: l.dropWhile p := by
  intro l
  induction l with
  | nil =>
    intro h
    exact absurd (List.eq_nil_of_infix_nil h) hne
  | cons c cs ih =>
    intro h
    by_cases hp : p c
    · rw [List.dropWhile_cons_of_pos hp]
      rcases List.infix_cons_iff.mp h with hpre | hinf
      · cases tok with
        | nil => exact absurd rfl hne
        | cons t0 ts =>
          have := (List.cons_prefix_cons.mp hpre).1
          have h0 := hns t0 (by simp)
          rw [this] at h0
          rw [h0] at hp
          cases hp
      · exact ih hinf
    · rw [List.dropWhile_cons_of_neg hp]
      exact h

theorem inf_rdropWhile {p : Char → Bool} {tok : List Char}
    (hne : tok ≠ []) (hns : ∀ c ∈ tok, p c = false) {l : List Char}
    (h : tok <:+: l) : tok <:+: List.rdropWhile p l := by
  have h1 : tok.reverse <:+: l.reverse := List.reverse_infix.mpr h
  have h2 : tok.reverse <:+: (l.reverse.dropWhile p) := by
    apply inf_dropWhile (by simpa using hne) _ h1
    intro c hc
    exact hns c (List.mem_reverse.mp hc)
  unfold List.rdropWhile
  have h3 := List.reverse_infix.mpr h2
  simpa using h3

theorem dropWhile_append_all {p : Char → Bool} {a b : List Char}
    (h : ∀ c ∈ a, p c = true) : (a ++ b).dropWhile p = b.dropWhile p := by
  induction a with
  | nil => simp
  | cons c a' ih =>
    rw [List.cons_append, List.dropWhile_cons_of_pos (h c (by simp))]
    exact ih (fun c' hc' => h c' (by simp [hc']))

theorem dropWhile_append_ne {p : Char → Bool} {a b : List Char}
    (h : a.dropWhile p ≠ []) : (a ++ b).dropWhile p = a.dropWhile p ++ b := by
  induction a with
  | nil => simp at h
  | cons c a' ih =>
    by_cases hp : p c
    · rw [List.dropWhile_cons_of_pos hp] at h
      rw [List.cons_append]
      simp only [List.dropWhile_cons_of_pos hp]
      exact ih h
    · simp only [List.cons_append, List.dropWhile_cons_of_neg hp]

theorem rdropWhile_append_of {p : Char → Bool} {a b : List Char}
    (ha : a ≠ []) (hlast : p (a.getLast ha) = false) :
    List.rdropWhile p (a ++ b) = a ++ List.rdropWhile p b := by
  have hrv : a.reverse = a.getLast ha :: a.dropLast.reverse := by
    conv_lhs => rw [← List.dropLast_append_getLast ha]
    simp
  unfold List.rdropWhile
  rw [List.reverse_append]
  by_cases hb : b.reverse.dropWhile p = []
  · have hall : ∀ c ∈ b.reverse, p c = true := List.dropWhile_eq_nil_iff.mp hb
    rw [dropWhile_append_all hall, hrv, List.dropWhile_cons_of_neg (by simp [hlast]), hb]
    rw [← hrv, List.reverse_reverse]
    simp
  · rw [dropWhile_append_ne hb, List.reverse_append, List.reverse_reverse]

theorem pyStrip_head_last {a b : List Char} (ha : a ≠ [])
    (hhead : pySpace (a.head ha) = false) (hlast : pySpace (a.getLast ha) = false) :
    pyStrip (a ++ b) = a ++ List.rdropWhile pySpace b := by
  unfold pyStrip
  cases a with
  | nil => exact absurd rfl ha
  | cons a0 as =>
    have h0 : pySpace a0 = false := hhead
    rw [List.cons_append, List.dropWhile_cons_of_neg (by simp [h0]), ← List.cons_append]
    exact rdropWhile_append_of (by simp) hlast

theorem valid_sql_eq (sql : List Char) :
    valid_sql sql =
      (!sql.isEmpty && ((lc "SELECT").isPrefixOf (pyStrip (upperL sql)) &&
        !(forbiddenTokens.any (fun t => hasInfix t (pyStrip (upperL sql)))))) := by
  unfold valid_sql
  by_cases h1 : sql.isEmpty <;>
    by_cases hp : (lc "SELECT").isPrefixOf (pyStrip (upperL sql)) <;>
      by_cases ha : forbiddenTokens.any (fun t => hasInfix t (pyStrip (upperL sql))) <;>
        simp [h1, hp, ha]

theorem valid_sql_iff {sql : List Char} :
    valid_sql sql = true ↔
      sql ≠ [] ∧ (lc "SELECT") <+: pyStrip (upperL sql) ∧
        ∀ tok ∈ forbiddenTokens, ¬ tok <:+: pyStrip (upperL sql) := by
  rw [valid_sql_eq]
  simp [List.isPrefixOf_iff_prefix, hasInfix_iff, List.isEmpty_iff, List.any_eq_true]

theorem inf_pyStrip_iff {tok l : List Char} (hne : tok ≠ [])
    (hns : ∀ c ∈ tok, pySpace c = false) :
    tok <:+: pyStrip l ↔ tok <:+: l := by
  constructor
  · intro h
    exact h.trans (pyStrip_inf l)
  · intro h
    exact inf_rdropWhile hne hns (inf_dropWhile hne hns h)

theorem upperL_pyStrip (l : List Char) : upperL (pyStrip l) = pyStrip (upperL l) := by
  have hfun2 : pySpace ∘ pyUpper = pySpace := funext pySpace_pyUpper
  unfold pyStrip upperL List.rdropWhile
  simp only [List.dropWhile_map, hfun2, ← List.map_reverse]

theorem pyStrip_nil : pyStrip [] = [] := rfl

theorem pyStrip_idem (l : List Char) : pyStrip (pyStrip l) = pyStrip l := by
  unfold pyStrip
  have h1 : (List.rdropWhile pySpace (l.dropWhile pySpace)).dropWhile pySpace =
      List.rdropWhile pySpace (l.dropWhile pySpace) := by
    cases hrd : List.rdropWhile pySpace (l.dropWhile pySpace) with
    | nil => simp
    | cons c cs =>
      obtain ⟨t, ht⟩ := List.rdropWhile_prefix pySpace (l.dropWhile pySpace)
      rw [hrd] at ht
      have hX : l.dropWhile pySpace = c :: (cs ++ t) := by rw [← ht]; simp
      have hXne : l.dropWhile pySpace ≠ [] := by rw [hX]; simp
      have hhd := List.head_dropWhile_not pySpace l hXne
      have hq : (l.dropWhile pySpace).head? = some c := by rw [hX]; rfl
      have hq2 : (l.dropWhile pySpace).head? =
          some ((l.dropWhile pySpace).head hXne) := List.head?_eq_head hXne
      have hceq : (l.dropWhile pySpace).head hXne = c := by
        rw [hq2] at hq
        exact (Option.some.injEq _ _).mp hq
      have hc : pySpace c = false := by rw [← hceq]; exact hhd
      rw [List.dropWhile_cons_of_neg (by simp [hc])]
  rw [h1, List.rdropWhile_idempotent]

theorem clean_sql_stripped (raw : List Char) :
    pyStrip (clean_sql raw) = clean_sql raw := by
  unfold clean_sql
  by_cases h : raw.isEmpty
  · rw [if_pos h]
    exact pyStrip_nil
  · rw [if_neg h]
    cases h1 : findSelSemi (pyStrip (stripFences raw)) with
    | some m =>
      simp only [h1]
      exact pyStrip_idem m
    | none =>
      simp only [h1]
      cases h2 : findSelRest (pyStrip (stripFences raw)) with
      | some m =>
        simp only [h2]
        exact pyStrip_idem m
      | none =>
        simp only [h2]
        exact pyStrip_nil

theorem takeWhile_take {p : Char → Bool} (l : List Char) :
    l.takeWhile p = l.take (l.takeWhile p).length := by
  induction l with
  | nil => simp
  | cons c cs ih =>
    by_cases hp : p c
    · rw [List.takeWhile_cons_of_pos hp]
      simp only [List.length_cons, List.take_succ_cons]
      rw [← List.takeWhile_cons_of_pos (l := cs) hp, List.takeWhile_cons_of_pos hp, ← ih]
    · rw [List.takeWhile_cons_of_neg hp]
      simp

theorem dropWhile_drop {p : Char → Bool} (l : List Char) :
    l.dropWhile p = l.drop (l.takeWhile p).length := by
  induction l with
  | nil => simp
  | cons c cs ih =>
    by_cases hp : p c
    · rw [List.dropWhile_cons_of_pos hp, List.takeWhile_cons_of_pos hp]
      simpa using ih
    · rw [List.dropWhile_cons_of_neg hp, List.takeWhile_cons_of_neg hp]
      simp

theorem valid_noTok {sql : List Char} (h : valid_sql sql = true) :
    noTok (upperL sql) := by
  obtain ⟨_, _, htoks⟩ := valid_sql_iff.mp h
  intro tok htok hinf
  apply htoks tok htok
  have hprops : ∀ t ∈ forbiddenTokens, t ≠ [] ∧ ∀ c ∈ t, pySpace c = false := by decide
  exact (inf_pyStrip_iff (hprops tok htok).1 (hprops tok htok).2).mpr hinf

theorem valid_decomp {sql : List Char} (h : valid_sql sql = true) :
    ∃ w sel rest, sql = w ++ sel ++ rest ∧ (∀ x ∈ w, pySpace x = true) ∧
      upperL sel = lc "SELECT" := by
  obtain ⟨_, hsel, _⟩ := valid_sql_iff.mp h
  have h1 : (lc "SELECT") <+: (upperL sql).dropWhile pySpace :=
    hsel.trans (List.rdropWhile_prefix _ _)
  obtain ⟨q, hq⟩ := h1
  refine ⟨sql.take ((upperL sql).takeWhile pySpace).length,
    (sql.drop ((upperL sql).takeWhile pySpace).length).take 6,
    ((sql.drop ((upperL sql).takeWhile pySpace).length).drop 6), ?_, ?_, ?_⟩
  · rw [List.append_assoc, List.take_append_drop, List.take_append_drop]
  · intro x hx
    have hmem : pyUpper x ∈ (upperL sql).takeWhile pySpace := by
      have h2 : List.map pyUpper (sql.take ((upperL sql).takeWhile pySpace).length) =
          (upperL sql).take ((upperL sql).takeWhile pySpace).length :=
        List.map_take pyUpper sql _
      have h3 := List.mem_map_of_mem pyUpper hx
      rw [h2, ← takeWhile_take] at h3
      exact h3
    have := List.mem_takeWhile_imp hmem
    rw [pySpace_pyUpper] at this
    exact this
  · have h2 : List.map pyUpper ((sql.drop ((upperL sql).takeWhile pySpace).length).take 6) =
        ((upperL sql).drop ((upperL sql).takeWhile pySpace).length).take 6 := by
      rw [List.map_take, List.map_drop]
      rfl
    show List.map pyUpper ((sql.drop ((upperL sql).takeWhile pySpace).length).take 6) =
      lc "SELECT"
    rw [h2, ← dropWhile_drop, ← hq]
    exact List.take_left (lc "SELECT") q

theorem upperL_append (a b : List Char) : upperL (a ++ b) = upperL a ++ upperL b :=
  List.map_append pyUpper a b

theorem sel_strip_pref {w sel Z : List Char} (hw : ∀ x ∈ w, pySpace x = true)
    (hsel : upperL sel = lc "SELECT") :
    (lc "SELECT") <+: pyStrip (upperL ((w ++ sel) ++ Z)) := by
  have hmap : upperL ((w ++ sel) ++ Z) = upperL w ++ (lc "SELECT" ++ upperL Z) := by
    rw [upperL_append, upperL_append, hsel, List.append_assoc]
  rw [hmap]
  unfold pyStrip
  rw [dropWhile_append_all ?hws]
  case hws =>
    intro c hc
    obtain ⟨x, hx, hxe⟩ := List.mem_map.mp hc
    rw [← hxe, pySpace_pyUpper]
    exact hw x hx
  have hS : lc "SELECT" ++ upperL Z = 'S' :: (lc "ELECT" ++ upperL Z) := rfl
  rw [hS, List.dropWhile_cons_of_neg (by decide), ← hS]
  rw [rdropWhile_append_of (show lc "SELECT" ≠ [] by decide) (by decide)]
  exact List.prefix_append _ _

theorem safe_of_decomp {w sel Z : List Char} (hw : ∀ x ∈ w, pySpace x = true)
    (hsel : upperL sel = lc "SELECT") (hnt : noTok (upperL ((w ++ sel) ++ Z))) :
    safeStatement ((w ++ sel) ++ Z) :=
  ⟨sel_strip_pref hw hsel, hnt⟩

theorem safeStatement_pyStrip {s : List Char} (h : safeStatement s) :
    safeStatement (pyStrip s) := by
  obtain ⟨h1, h2⟩ := h
  constructor
  · rw [upperL_pyStrip, pyStrip_idem]
    exact h1
  · rw [upperL_pyStrip]
    exact noTok_mono (pyStrip_inf _) h2

theorem noTok_pref {a b : List Char} (h : a <+: b) (hb : noTok (upperL b)) :
    noTok (upperL a) :=
  noTok_mono ((h.map pyUpper).isInfix) hb

theorem noTok_appendU {A B : List Char}
    (hBne : upperL B ≠ [])
    (hA : ∀ tok ∈ forbiddenTokens, ¬ tok <:+: upperL B)
    (hB : ∀ tok ∈ forbiddenTokens, ∀ d ∈ (upperL B).take 1, d ∉ tok)
    (hfin : ∀ tok ∈ forbiddenTokens, ∀ i ∈ List.range tok.length, i ≠ 0 →
      ¬ tok.take i <:+ upperL B)
    (h : noTok (upperL A)) : noTok (upperL (A ++ B)) := by
  rw [upperL_append]
  exact noTok_append hBne hA hB hfin h

theorem limitStage_noTok {s : List Char} (h : noTok (upperL s)) :
    noTok (upperL (limitStage s)) := by
  unfold limitStage
  split
  · apply noTok_appendU (by decide) (by decide) (by decide) (by decide)
    apply noTok_pref ?_ h
    unfold rstripSemi
    exact List.rdropWhile_prefix _ _
  · exact h

theorem semiStage_noTok {s : List Char} (h : noTok (upperL s)) :
    noTok (upperL (semiStage s)) := by
  unfold semiStage
  split
  · exact h
  · exact noTok_appendU (by decide) (by decide) (by decide) (by decide) h

theorem limitStage_decomp {a Z : List Char} (ha : a ≠ [])
    (hlast : (a.getLast ha == ';') = false) :
    ∃ Z2, limitStage (a ++ Z) = a ++ Z2 := by
  unfold limitStage
  split
  · refine ⟨rstripSemi Z ++ lc " LIMIT 50", ?_⟩
    unfold rstripSemi
    rw [rdropWhile_append_of ha hlast, List.append_assoc]
  · exact ⟨Z, rfl⟩

theorem semiStage_decomp {a Z : List Char} : ∃ Z2, semiStage (a ++ Z) = a ++ Z2 := by
  unfold semiStage
  split
  · exact ⟨Z, rfl⟩
  · exact ⟨Z ++ [';'], by rw [List.append_assoc]⟩

theorem repair_sql_eq {sql : List Char} (h : sql.isEmpty = false) :
    repair_sql sql = semiStage (limitStage (statusSub (subWhere (subFrom sql)))) := by
  unfold repair_sql
  rw [h]
  simp

theorem repair_sql_safe {sql : List Char} (h : valid_sql sql = true) :
    safeStatement (repair_sql sql) := by
  obtain ⟨w, sel, rest, hdecomp, hw, hsel⟩ := valid_decomp h
  have hnt : noTok (upperL sql) := valid_noTok h
  have hsqlne : sql.isEmpty = false := by
    obtain ⟨hne, _, _⟩ := valid_sql_iff.mp h
    simpa [List.isEmpty_iff] using hne
  have hselchar : ∀ c ∈ sel, pyUpper c ∈ lc "SELECT" := by
    intro c hc
    have h1 := List.mem_map_of_mem pyUpper hc
    rw [show List.map pyUpper sel = upperL sel from rfl, hsel] at h1
    exact h1
  have hpassf : ∀ c ∈ w ++ sel, pyLower c ≠ 'f' := by
    intro c hc
    rcases List.mem_append.mp hc with h1 | h1
    · exact (spaceChar_props (hw c h1)).1
    · exact (selChar_props (hselchar c h1)).1
  have hpassw : ∀ c ∈ w ++ sel, pyLower c ≠ 'w' := by
    intro c hc
    rcases List.mem_append.mp hc with h1 | h1
    · exact (spaceChar_props (hw c h1)).2.1
    · exact (selChar_props (hselchar c h1)).2.1
  have hpassq : ∀ c ∈ w ++ sel, c ≠ squote ∧ c ≠ dquote := by
    intro c hc
    rcases List.mem_append.mp hc with h1 | h1
    · exact ⟨(spaceChar_props (hw c h1)).2.2.1, (spaceChar_props (hw c h1)).2.2.2⟩
    · exact ⟨(selChar_props (hselchar c h1)).2.2.1, (selChar_props (hselchar c h1)).2.2.2.1⟩
  have e1 : subFrom sql = (w ++ sel) ++ subFrom rest := by
    rw [hdecomp]
    exact subFrom_pass hpassf
  have e2 : subWhere (subFrom sql) = (w ++ sel) ++ subWhere (subFrom rest) := by
    rw [e1]
    exact subWhere_pass hpassw
  have e3 : statusSub (subWhere (subFrom sql)) =
      (w ++ sel) ++ statusSub (subWhere (subFrom rest)) := by
    rw [e2]
    exact statusSub_pass hpassq
  have n3 : noTok (upperL (statusSub (subWhere (subFrom sql)))) :=
    statusSub_noTok (subWhere_noTok (subFrom_noTok hnt))
  have hsellen : sel.length = 6 := by
    have := congrArg List.length hsel
    simpa [upperL] using this
  have hselne : sel ≠ [] := by
    intro hc
    rw [hc] at hsellen
    simp at hsellen
  have hwsne : w ++ sel ≠ [] := by simp [hselne]
  have hlastmem : sel.getLast hselne ∈ sel := List.getLast_mem hselne
  have hlastsemi : ((w ++ sel).getLast hwsne == ';') = false := by
    rw [List.getLast_append_of_ne_nil hselne]
    have := (selChar_props (hselchar _ hlastmem)).2.2.2.2.2
    simpa using this
  obtain ⟨Z2, e4⟩ := limitStage_decomp (Z := statusSub (subWhere (subFrom rest))) hwsne hlastsemi
  obtain ⟨Z3, e5⟩ := semiStage_decomp (a := w ++ sel) (Z := Z2)
  have hrw : repair_sql sql = (w ++ sel) ++ Z3 := by
    rw [repair_sql_eq hsqlne, e3, e4, e5]
  rw [hrw]
  apply safe_of_decomp hw hsel
  rw [← hrw, repair_sql_eq hsqlne]
  exact semiStage_noTok (limitStage_noTok n3)

theorem digit_pyUpper {c : Char} (h : c.isDigit = true) : pyUpper c = c := by
  unfold pyUpper
  cases hf : lowerPairs.find? (fun p => p.2 == c) with
  | none => simp
  | some p =>
    have hp := List.mem_of_find?_eq_some hf
    have hc : p.2 = c := by simpa using List.find?_some hf
    have hall : ∀ q ∈ lowerPairs, q.2.isDigit = false := by decide
    have h2 := hall _ hp
    rw [hc, h] at h2
    cases h2

theorem noTok_digit_sandwich {A d B : List Char} (hdne : d ≠ [])
    (hdig : ∀ c ∈ d, c.isDigit = true)
    (hA : noTok A) (hB : noTok B) : noTok (A ++ (d ++ B)) := by
  have hK : ∀ tok ∈ forbiddenTokens, tok ≠ [] ∧ ∀ c ∈ tok, c.isDigit = false := by decide
  intro tok htok hinf
  rcases inf_split hinf with h1 | h2 | ⟨t1, t2, hs, h1ne, h2ne, hs1, hs2⟩
  · exact hA tok htok h1
  · rcases inf_split h2 with h3 | h4 | ⟨u1, u2, hu, hu1ne, hu2ne, hu1, hu2⟩
    · obtain ⟨hne, hnd⟩ := hK tok htok
      cases tok with
      | nil => exact hne rfl
      | cons c cs =>
        have hcd : c ∈ d := h3.sublist.subset (by simp)
        have hd2 := hdig c hcd
        rw [hnd c (by simp)] at hd2
        cases hd2
    · exact hB tok htok h4
    · obtain ⟨_, hnd⟩ := hK tok htok
      cases u1 with
      | nil => exact hu1ne rfl
      | cons c cs =>
        have hcd : c ∈ d := hu1.sublist.subset (by simp)
        have h5 : c ∈ tok := by rw [hu]; simp
        have hd2 := hdig c hcd
        rw [hnd c h5] at hd2
        cases hd2
  · obtain ⟨_, hnd⟩ := hK tok htok
    obtain ⟨ww, hww⟩ := hs2
    cases d with
    | nil => exact hdne rfl
    | cons b bs =>
      cases t2 with
      | nil => exact h2ne rfl
      | cons a as =>
        have hab : a = b := by
          simp only [List.cons_append] at hww
          exact ((List.cons.injEq a _ b _).mp hww).1
        have ha_tok : a ∈ tok := by rw [hs]; simp
        have hd2 := hdig b (by simp)
        rw [← hab, hnd a ha_tok] at hd2
        cases hd2

theorem incTemplate_safe {d : List Char} (hdne : d ≠ [])
    (hdig : ∀ c ∈ d, c.isDigit = true) : safeStatement (incTemplate d) := by
  have hmap : upperL (incTemplate d) =
      upperL (lc "SELECT TicketStatus FROM ticketdetails WHERE IncidentID=\x27") ++
        (upperL d ++ upperL (lc "\x27;")) := by
    unfold incTemplate
    rw [upperL_append, upperL_append, List.append_assoc]
  constructor
  · rw [hmap]
    rw [pyStrip_head_last (by decide) (by decide) (by decide)]
    have h1 : lc "SELECT" <+:
        upperL (lc "SELECT TicketStatus FROM ticketdetails WHERE IncidentID=\x27") := by
      decide
    exact h1.trans (List.prefix_append _ _)
  · rw [hmap]
    apply noTok_digit_sandwich
    · simpa [upperL] using hdne
    · intro c hc
      obtain ⟨x, hx, hxe⟩ := List.mem_map.mp hc
      rw [← hxe, digit_pyUpper (hdig x hx)]
      exact hdig x hx
    · decide
    · decide

theorem incAt_digits {l d : List Char} (h : incAt l = some d) :
    d ≠ [] ∧ ∀ c ∈ d, c.isDigit = true := by
  unfold incAt at h
  split at h
  · split at h
    · cases h
    · rename_i d0 ds
      split at h
      · split at h
        · cases h
        · rename_i e es
          split at h
          · rename_i he
            have hd : d = e :: es.takeWhile Char.isDigit := by simpa using h.symm
            subst hd
            refine ⟨by simp, ?_⟩
            intro c hc
            rcases List.mem_cons.mp hc with hc | hc
            · rw [hc]; exact he
            · exact List.mem_takeWhile_imp hc
          · cases h
      · split at h
        · rename_i hd0
          have hd : d = d0 :: ds.takeWhile Char.isDigit := by simpa using h.symm
          subst hd
          refine ⟨by simp, ?_⟩
          intro c hc
          rcases List.mem_cons.mp hc with hc | hc
          · rw [hc]; exact hd0
          · exact List.mem_takeWhile_imp hc
        · cases h
  · cases h

theorem findInc_digits {l d : List Char} (h : findInc l = some d) :
    d ≠ [] ∧ ∀ c ∈ d, c.isDigit = true := by
  induction l with
  | nil => simp [findInc] at h
  | cons c cs ih =>
    simp only [findInc] at h
    cases hi : incAt (c :: cs) with
    | some d2 =>
      rw [hi] at h
      have hd : d = d2 := by simpa using h.symm
      subst hd
      exact incAt_digits hi
    | none =>
      rw [hi] at h
      exact ih h

theorem fast_intent_cases {q f : List Char} (h : fast_intent q = some f) :
    f = fastT1 ∨ f = fastT2 ∨ f = fastT3 ∨ f = fastT4 ∨
      ∃ d, f = incTemplate d ∧ d ≠ [] ∧ ∀ c ∈ d, c.isDigit = true := by
  simp only [fast_intent] at h
  split at h
  · exact Or.inl (by simpa using h.symm)
  · split at h
    · exact Or.inr (Or.inl (by simpa using h.symm))
    · split at h
      · exact Or.inr (Or.inr (Or.inl (by simpa using h.symm)))
      · split at h
        · exact Or.inr (Or.inr (Or.inr (Or.inl (by simpa using h.symm))))
        · cases hf : findInc (lowerL q) with
          | some dd =>
            rw [hf] at h
            obtain ⟨h1, h2⟩ := findInc_digits hf
            exact Or.inr (Or.inr (Or.inr (Or.inr ⟨dd, by simpa using h.symm, h1, h2⟩)))
          | none =>
            rw [hf] at h
            cases h

set_option maxRecDepth 10000 in
theorem fastT1_safe : safeStatement fastT1 := by decide

set_option maxRecDepth 10000 in
theorem fastT2_safe : safeStatement fastT2 := by decide

set_option maxRecDepth 10000 in
theorem fastT3_safe : safeStatement fastT3 := by decide

set_option maxRecDepth 10000 in
theorem fastT4_safe : safeStatement fastT4 := by decide

/-- C1: whenever `generate_sql` returns a statement (through either the
fast-intent path or the validated-and-repaired LLM path), that statement
begins with `SELECT` (case-insensitively, ignoring surrounding whitespace)
and contains no forbidden token (`UPDATE`, `DELETE`, `INSERT`, `DROP`,
`ALTER`, `TRUNCATE`) and no `--` sequence, case-insensitively, anywhere. -/
theorem C1_generate_sql_safe :
    ∀ (service : List Char → List Char) (question s : List Char),
      (generate_sql service question).1 = some s → safeStatement s := by
  intro service question s h
  cases hf : fast_intent question with
  | some fast =>
    simp only [generate_sql, hf] at h
    have hs : s = pyStrip fast := by simpa using h.symm
    subst hs
    rcases fast_intent_cases hf with h1 | h1 | h1 | h1 | ⟨d, h1, hdne, hdig⟩ <;> subst h1
    · exact safeStatement_pyStrip fastT1_safe
    · exact safeStatement_pyStrip fastT2_safe
    · exact safeStatement_pyStrip fastT3_safe
    · exact safeStatement_pyStrip fastT4_safe
    · exact safeStatement_pyStrip (incTemplate_safe hdne hdig)
  | none =>
    simp only [generate_sql, hf] at h
    by_cases hr : (call_llm service (build_prompt question)).isEmpty
    · rw [if_pos hr] at h
      simp at h
    · rw [if_neg hr] at h
      by_cases hv : valid_sql (clean_sql (call_llm service (build_prompt question))) = true
      · rw [if_pos hv] at h
        have hs : s = pyStrip (repair_sql (clean_sql (call_llm service (build_prompt question)))) := by
          simpa using h.symm
        subst hs
        exact safeStatement_pyStrip (repair_sql_safe hv)
      · rw [if_neg hv] at h
        simp at h

/-- Witness: the "latest" intent fires and its fixed statement satisfies the
safety invariant. -/
theorem C1_generate_sql_safe_witness : safeStatement fastT3 :=
  C1_generate_sql_safe (fun _ => []) (lc "latest") fastT3 (by decide)

/-- C2: the safety validator returns `false` for exactly the strings that are
empty, or whose trimmed upper-cased form does not start with `SELECT`, or
that contain (case-insensitively, anywhere — quoted literals included) one of
`UPDATE, DELETE, INSERT, DROP, ALTER, TRUNCATE` or the sequence `--`;
it returns `true` for every other string. -/
theorem C2_valid_sql_characterization :
    ∀ sql : List Char,
      valid_sql sql = false ↔
        (sql = [] ∨ ¬ (lc "SELECT") <+: pyStrip (upperL sql) ∨
          ∃ tok ∈ forbiddenTokens, tok <:+: upperL sql) := by
  intro sql
  rw [Bool.eq_false_iff, Ne, valid_sql_iff]
  constructor
  · intro h
    by_cases h1 : sql = []
    · exact Or.inl h1
    by_cases h2 : (lc "SELECT") <+: pyStrip (upperL sql)
    · right; right
      by_contra h3
      push_neg at h3
      apply h
      refine ⟨h1, h2, ?_⟩
      intro tok htok hinf
      exact h3 tok htok (hinf.trans (pyStrip_inf _))
    · exact Or.inr (Or.inl h2)
  · rintro (h1 | h2 | ⟨tok, htok, hinf⟩) ⟨g1, g2, g3⟩
    · exact g1 h1
    · exact h2 g2
    · have hprops : ∀ t ∈ forbiddenTokens, t ≠ [] ∧ ∀ c ∈ t, pySpace c = false := by
        decide
      exact g3 tok htok
        ((inf_pyStrip_iff (hprops tok htok).1 (hprops tok htok).2).mpr hinf)

/-- Witness: a statement carrying `DROP` inside a quoted literal is rejected. -/
theorem C2_valid_sql_characterization_witness :
    valid_sql (lc "SELECT name FROM t WHERE x=\x27DROP\x27;") = false :=
  (C2_valid_sql_characterization _).mpr
    (Or.inr (Or.inr ⟨lc "DROP", by decide, by decide⟩))

/-- C3: `generate_sql` returns absence exactly when no intent shortcut fires
and the cleaned LLM output fails validation (external failure and empty
output are subsumed: they clean to the empty string, which the validator
rejects); and any returned statement is either a stripped shortcut template
or the repair of a statement that passed the validator — an invalid candidate
is never repaired or returned. -/
theorem C3_generate_sql_failure_modes :
    ∀ (service : List Char → List Char) (question : List Char),
      ((generate_sql service question).1 = none ↔
        (fast_intent question = none ∧
          valid_sql (clean_sql (call_llm service (build_prompt question))) = false)) ∧
      (∀ s, (generate_sql service question).1 = some s →
        (∃ f, fast_intent question = some f ∧ s = pyStrip f) ∨
          (valid_sql (clean_sql (call_llm service (build_prompt question))) = true ∧
            s = pyStrip (repair_sql (clean_sql (call_llm service (build_prompt question)))))) := by
  intro service question
  cases hf : fast_intent question with
  | some fast =>
    constructor
    · constructor
      · intro h
        simp only [generate_sql, hf] at h
        cases h
      · rintro ⟨h1, _⟩
        cases h1
    · intro s h
      simp only [generate_sql, hf] at h
      exact Or.inl ⟨fast, rfl, by simpa using h.symm⟩
  | none =>
    by_cases hr : (call_llm service (build_prompt question)).isEmpty
    · have hemp : call_llm service (build_prompt question) = [] := List.isEmpty_iff.mp hr
      have hclean : clean_sql (call_llm service (build_prompt question)) = [] := by
        rw [hemp]
        rfl
      have hval : valid_sql (clean_sql (call_llm service (build_prompt question))) = false := by
        rw [hclean]
        rfl
      constructor
      · simp only [generate_sql, hf, if_pos hr]
        simp [hval]
      · intro s h
        simp only [generate_sql, hf, if_pos hr] at h
        cases h
    · by_cases hv : valid_sql (clean_sql (call_llm service (build_prompt question))) = true
      · constructor
        · simp only [generate_sql, hf, if_neg hr, if_pos hv]
          constructor
          · intro h
            cases h
          · rintro ⟨_, h2⟩
            rw [hv] at h2
            cases h2
        · intro s h
          simp only [generate_sql, hf, if_neg hr, if_pos hv] at h
          exact Or.inr ⟨hv, by simpa using h.symm⟩
      · have hv' : valid_sql (clean_sql (call_llm service (build_prompt question))) = false :=
          Bool.eq_false_iff.mpr hv
        constructor
        · simp only [generate_sql, hf, if_neg hr, if_neg hv]
          simp [hv']
        · intro s h
          simp only [generate_sql, hf, if_neg hr, if_neg hv] at h
          cases h

/-- Witness: with an external service answering `DROP TABLE x;` and a question
matching no shortcut, the orchestrator returns absence. -/
theorem C3_generate_sql_failure_modes_witness :
    (generate_sql (fun _ => lc "DROP TABLE x;") (lc "report please")).1 = none :=
  ((C3_generate_sql_failure_modes (fun _ => lc "DROP TABLE x;") (lc "report please")).1).mpr
    ⟨by decide, by decide⟩

/-- C4: a question matching an intent shortcut is answered by the shortcut's
fixed statement with no external call (`false` flag), identically under any
two service behaviours; in particular "how many pending tickets" yields the
fixed pending-count statement. -/
theorem C4_fast_intent_no_llm :
    (∀ (service : List Char → List Char) (question f : List Char),
        fast_intent question = some f →
          generate_sql service question = (some (pyStrip f), false)) ∧
      (∀ (s1 s2 : List Char → List Char) (question f : List Char),
        fast_intent question = some f →
          generate_sql s1 question = generate_sql s2 question) ∧
      (∀ service : List Char → List Char,
        generate_sql service (lc "how many pending tickets") = (some fastT1, false)) := by
  have h1 : ∀ (service : List Char → List Char) (question f : List Char),
      fast_intent question = some f →
        generate_sql service question = (some (pyStrip f), false) := by
    intro service question f hf
    simp only [generate_sql, hf]
  refine ⟨h1, fun s1 s2 question f hf => by rw [h1 s1 question f hf, h1 s2 question f hf], ?_⟩
  intro service
  have hf : fast_intent (lc "how many pending tickets") = some fastT1 := by decide
  rw [h1 service _ _ hf]
  have hs : pyStrip fastT1 = fastT1 := by decide
  rw [hs]

/-- Witness: a shortcut question is served with no external call. -/
theorem C4_fast_intent_no_llm_witness :
    generate_sql (fun _ => []) (lc "berapa pending") = (some (pyStrip fastT1), false) :=
  C4_fast_intent_no_llm.1 (fun _ => []) (lc "berapa pending") fastT1 (by decide)

/-- C5 counterexample: the question "hello" matches no shortcut and the
external call fails, so the first cached call returns absence; the claim says
a later identical call attempts generation again with a fresh external call,
but the second call is served from the cache: its external-call flag is
`false` and it returns the cached absence. -/
theorem C5_counterexample :
    ((generate_sql_cached (fun _ => []) [] (lc "hello")).1 = none) ∧
      ((generate_sql_cached (fun _ => []) [] (lc "hello")).2.2 = true) ∧
      ((generate_sql_cached (fun _ => [])
          (generate_sql_cached (fun _ => []) [] (lc "hello")).2.1 (lc "hello")).2.2 = false) ∧
      ((generate_sql_cached (fun _ => [])
          (generate_sql_cached (fun _ => []) [] (lc "hello")).2.1 (lc "hello")).1 = none) := by
  decide

/-- C5 amended: the `lru_cache` wrapper stores every computed result,
including absence: an immediately repeated question is served the cached
result (even a cached failure) and makes no fresh external call. -/
theorem C5_cache_stores_failures :
    ∀ (service : List Char → List Char)
      (cache : List (List Char × Option (List Char))) (question : List Char),
      (generate_sql_cached service
          (generate_sql_cached service cache question).2.1 question).1 =
        (generate_sql_cached service cache question).1 ∧
      (generate_sql_cached service
          (generate_sql_cached service cache question).2.1 question).2.2 = false := by
  intro service cache question
  unfold generate_sql_cached
  cases hfind : cache.find? (fun e => e.1 == question) with
  | some e =>
    simp only [hfind]
    have hq : ((question, e.2) :: cache.eraseP (fun e2 => e2.1 == question)).find?
        (fun e2 => e2.1 == question) = some (question, e.2) := by
      simp [List.find?]
    simp only [hq]
    exact ⟨trivial, trivial⟩
  | none =>
    simp only [hfind]
    have htake : (((question, (generate_sql service question).1) :: cache).take 200) =
        (question, (generate_sql service question).1) :: cache.take 199 := by
      rw [show (200 : Nat) = 199 + 1 from rfl, List.take_succ_cons]
    simp only [htake]
    have hq : (((question, (generate_sql service question).1) :: cache.take 199).find?
        (fun e2 => e2.1 == question)) = some (question, (generate_sql service question).1) := by
      simp [List.find?]
    simp only [hq]
    exact ⟨trivial, trivial⟩

set_option maxRecDepth 10000 in
/-- C6 counterexample: on a statement with a subquery, `repair_sql` rewrites
the subquery's `WHERE y` as well — the claim that only the first WHERE
clause is rewritten and later ones are left unchanged is false. -/
theorem C6_counterexample :
    repair_sql (lc "SELECT a FROM t WHERE x IN (SELECT b FROM u WHERE y = 1);") =
      lc "SELECT a FROM ticketdetails WHERE TicketStatus IN (SELECT b FROM ticketdetails WHERE TicketStatus = 1) LIMIT 50;" ∧
      ¬ (lc "WHERE y") <:+:
        repair_sql (lc "SELECT a FROM t WHERE x IN (SELECT b FROM u WHERE y = 1);") := by
  constructor
  · decide
  · decide

theorem hasPrefixCI_of_lower {pat x y : List Char} (h : lowerL x = pat) :
    hasPrefixCI pat (x ++ y) = true := by
  rw [hasPrefixCI_iff, ← h,
    show lowerL (x ++ y) = lowerL x ++ lowerL y from List.map_append _ _ _]
  exact List.prefix_append _ _

theorem word_not_space {c : Char} (h : isWordChar c = true) : pySpace c = false := by
  by_cases hs : pySpace c = true
  · simp only [pySpace, Bool.or_eq_true, beq_iff_eq] at hs
    rcases hs with ((((h2|h2)|h2)|h2)|h2)|h2 <;> subst h2 <;> exact absurd h (by decide)
  · exact Bool.eq_false_iff.mpr hs

theorem dropWhile_all_then {p : Char → Bool} {a b : List Char}
    (ha : ∀ c ∈ a, p c = true) (hb : ∀ c ∈ b.take 1, p c = false) :
    (a ++ b).dropWhile p = b := by
  rw [dropWhile_append_all ha]
  cases b with
  | nil => rfl
  | cons c cs =>
    exact List.dropWhile_cons_of_neg (by simp [hb c (by simp)])

theorem tryWhere_match {w1 id1 rest : List Char}
    (hw1 : w1 ≠ []) (hw1s : ∀ c ∈ w1, pySpace c = true)
    (hid : id1 ≠ []) (hidw : ∀ c ∈ id1, isWordChar c = true)
    (hrest : ∀ c ∈ rest.take 1, isWordChar c = false) :
    tryWhere (lc "WHERE" ++ (w1 ++ (id1 ++ rest))) = some rest := by
  have hpre := hasPrefixCI_of_lower (x := lc "WHERE") (y := w1 ++ (id1 ++ rest))
    (show lowerL (lc "WHERE") = lc "where" from by decide)
  unfold tryWhere
  rw [hpre]
  have hdrop : (lc "WHERE" ++ (w1 ++ (id1 ++ rest))).drop 5 = w1 ++ (id1 ++ rest) := rfl
  rw [if_pos rfl, hdrop]
  cases w1 with
  | nil => exact absurd rfl hw1
  | cons a as =>
    have hsp : spaces1 ((a :: as) ++ (id1 ++ rest)) = some (id1 ++ rest) := by
      simp only [List.cons_append, spaces1]
      rw [if_pos (by simp [hw1s a (by simp)])]
      rw [dropWhile_all_then (fun c hc => hw1s c (by simp [hc])) ?_]
      intro c hc
      cases id1 with
      | nil => exact absurd rfl hid
      | cons d ds =>
        simp at hc
        rw [hc]
        exact word_not_space (hidw d (by simp))
    rw [hsp]
    cases id1 with
    | nil => exact absurd rfl hid
    | cons d ds =>
      simp only [List.cons_append, words1]
      rw [if_pos (by simp [hidw d (by simp)])]
      rw [dropWhile_all_then (fun c hc => hidw c (by simp [hc])) hrest]

theorem subWhere_match {w1 id1 rest : List Char}
    (hw1 : w1 ≠ []) (hw1s : ∀ c ∈ w1, pySpace c = true)
    (hid : id1 ≠ []) (hidw : ∀ c ∈ id1, isWordChar c = true)
    (hrest : ∀ c ∈ rest.take 1, isWordChar c = false) :
    subWhere (lc "WHERE" ++ (w1 ++ (id1 ++ rest))) = whereRepl ++ subWhere rest := by
  have hm := tryWhere_match hw1 hw1s hid hidw hrest
  have hf : lc "WHERE" ++ (w1 ++ (id1 ++ rest)) =
      'W' :: (lc "HERE" ++ (w1 ++ (id1 ++ rest))) := rfl
  unfold subWhere
  rw [hf]
  exact runSub_cons_some (fun hx => tryWhere_length hx) (hf ▸ hm)

/-- C6 amended: the repair engine rewrites every `WHERE <identifier>`
occurrence — also those in subqueries — to `WHERE TicketStatus`, not only the
first one. -/
theorem C6_subWhere_rewrites_all :
    ∀ (p q id1 id2 w1 w2 : List Char),
      (∀ c ∈ p, pyLower c ≠ 'w') → (∀ c ∈ q, pyLower c ≠ 'w') →
      w1 ≠ [] → (∀ c ∈ w1, pySpace c = true) →
      w2 ≠ [] → (∀ c ∈ w2, pySpace c = true) →
      id1 ≠ [] → (∀ c ∈ id1, isWordChar c = true) →
      id2 ≠ [] → (∀ c ∈ id2, isWordChar c = true) →
      (∃ c qs, q = c :: qs ∧ isWordChar c = false) →
      subWhere (p ++ lc "WHERE" ++ w1 ++ id1 ++ q ++ lc "WHERE" ++ w2 ++ id2) =
        p ++ whereRepl ++ q ++ whereRepl := by
  intro p q id1 id2 w1 w2 hp hq hw1 hw1s hw2 hw2s hid1 hid1w hid2 hid2w hqhead
  have e0 : p ++ lc "WHERE" ++ w1 ++ id1 ++ q ++ lc "WHERE" ++ w2 ++ id2 =
      p ++ (lc "WHERE" ++ (w1 ++ (id1 ++ (q ++ (lc "WHERE" ++ (w2 ++ id2)))))) := by
    simp [List.append_assoc]
  rw [e0, subWhere_pass hp]
  have hq1 : ∀ c ∈ (q ++ (lc "WHERE" ++ (w2 ++ id2))).take 1, isWordChar c = false := by
    obtain ⟨c0, qs, hq0, hcw⟩ := hqhead
    intro c hc
    rw [hq0] at hc
    simp at hc
    rw [hc]
    exact hcw
  rw [subWhere_match hw1 hw1s hid1 hid1w hq1, subWhere_pass hq]
  have hrest2 : ∀ c ∈ ([] : List Char).take 1, isWordChar c = false := by simp
  have h2 : subWhere (lc "WHERE" ++ (w2 ++ id2)) = whereRepl := by
    have := subWhere_match hw2 hw2s hid2 hid2w hrest2
    rw [show id2 ++ ([] : List Char) = id2 from by simp] at this
    rw [this]
    simp [subWhere, runSub_nil]
  rw [h2]
  simp [List.append_assoc]

/-- Witness: both WHERE clauses of a two-clause statement are rewritten. -/
theorem C6_subWhere_rewrites_all_witness :
    subWhere (lc "SELECT a FROM t " ++ lc "WHERE" ++ lc " " ++ lc "x" ++
        lc " IN (SELECT u " ++ lc "WHERE" ++ lc " " ++ lc "y") =
      lc "SELECT a FROM t " ++ whereRepl ++ lc " IN (SELECT u " ++ whereRepl :=
  C6_subWhere_rewrites_all (lc "SELECT a FROM t ") (lc " IN (SELECT u ")
    (lc "x") (lc "y") (lc " ") (lc " ")
    (by decide) (by decide) (by decide) (by decide) (by decide) (by decide)
    (by decide) (by decide) (by decide) (by decide)
    ⟨' ', lc "IN (SELECT u ", rfl, by decide⟩

set_option maxRecDepth 10000 in
/-- C7 counterexample: a statement whose only aggregate is `AVG` still gets
the row cap appended, contradicting the claim that any aggregate call leaves
the statement uncapped — only the substring `count(` suppresses the cap. -/
theorem C7_counterexample :
    hasInfix (lc "avg(") (lowerL (lc "SELECT AVG(tat) FROM ticketdetails;")) = true ∧
      repair_sql (lc "SELECT AVG(tat) FROM ticketdetails;") =
        lc "SELECT AVG(tat) FROM ticketdetails LIMIT 50;" := by
  decide

theorem getLast?_pyStrip_concat {y : List Char} {c : Char} (hc : pySpace c = false) :
    (pyStrip (y ++ [c])).getLast? = some c := by
  unfold pyStrip
  by_cases hy : y.dropWhile pySpace = []
  · have h1 : (y ++ [c]).dropWhile pySpace = [c] := by
      rw [dropWhile_append_all (List.dropWhile_eq_nil_iff.mp hy)]
      exact List.dropWhile_cons_of_neg (by simp [hc])
    rw [h1, List.rdropWhile_singleton]
    rw [if_neg (by simp [hc])]
    rfl
  · have h1 : (y ++ [c]).dropWhile pySpace = y.dropWhile pySpace ++ [c] :=
      dropWhile_append_ne hy
    rw [h1, List.rdropWhile_concat_neg _ _ _ (by simp [hc])]
    simp

/-- C7 amended: for a statement unchanged by the identifier/value rewrites,
the repair engine appends `LIMIT 50` (then a `;`) iff its lower-cased text
contains neither the substring `count(` nor the substring `limit`; aggregate
calls other than COUNT (e.g. AVG, SUM) do not suppress the cap, while any
occurrence of `limit` (even inside an identifier) does. -/
theorem C7_limit_cap_characterization :
    ∀ s : List Char, s ≠ [] → subFrom s = s → subWhere s = s → statusSub s = s →
      ((hasInfix (lc "count(") (lowerL s) = false ∧
          hasInfix (lc "limit") (lowerL s) = false →
          repair_sql s = rstripSemi s ++ lc " LIMIT 50" ++ [';']) ∧
        (hasInfix (lc "count(") (lowerL s) = true ∨
            hasInfix (lc "limit") (lowerL s) = true →
          repair_sql s = semiStage s)) := by
  intro s hne h1 h2 h3
  have hee : s.isEmpty = false :=
    Bool.eq_false_iff.mpr (fun h => hne (List.isEmpty_iff.mp h))
  constructor
  · rintro ⟨hc, hl⟩
    rw [repair_sql_eq hee, h1, h2, h3]
    unfold limitStage
    rw [if_pos (by simp [hc, hl])]
    unfold semiStage
    rw [if_neg ?_]
    · have hlast : (pyStrip (rstripSemi s ++ lc " LIMIT 50")).getLast? = some '0' := by
        rw [show lc " LIMIT 50" = lc " LIMIT 5" ++ ['0'] from rfl, ← List.append_assoc]
        exact getLast?_pyStrip_concat (by decide)
      simp [hlast]
  · intro hor
    rw [repair_sql_eq hee, h1, h2, h3]
    unfold limitStage
    rw [if_neg ?_]
    · rcases hor with h | h <;> simp [h]

set_option maxRecDepth 10000 in
/-- Witness: the AVG statement satisfies the amended characterization's
hypotheses, and the cap is appended. -/
theorem C7_limit_cap_characterization_witness :
    repair_sql (lc "SELECT AVG(tat) FROM ticketdetails;") =
      rstripSemi (lc "SELECT AVG(tat) FROM ticketdetails;") ++ lc " LIMIT 50" ++ [';'] :=
  (C7_limit_cap_characterization (lc "SELECT AVG(tat) FROM ticketdetails;")
    (by decide) (by decide) (by decide) (by decide)).1 ⟨by decide, by decide⟩

set_option maxRecDepth 10000 in
/-- C8 counterexample: `SELECT x FROM ;` passes the validator, but repairing
its repaired form changes it again (the second pass's table rewrite consumes
the appended `LIMIT`), so repair is not idempotent on validated statements. -/
theorem C8_counterexample :
    valid_sql (lc "SELECT x FROM ;") = true ∧
      repair_sql (repair_sql (lc "SELECT x FROM ;")) ≠
        repair_sql (lc "SELECT x FROM ;") := by
  decide

theorem tryFrom_match {w1 id1 rest : List Char}
    (hw1 : w1 ≠ []) (hw1s : ∀ c ∈ w1, pySpace c = true)
    (hid : id1 ≠ []) (hidw : ∀ c ∈ id1, isWordChar c = true)
    (hrest : ∀ c ∈ rest.take 1, isWordChar c = false) :
    tryFrom (lc "FROM" ++ (w1 ++ (id1 ++ rest))) = some rest := by
  have hpre := hasPrefixCI_of_lower (x := lc "FROM") (y := w1 ++ (id1 ++ rest))
    (show lowerL (lc "FROM") = lc "from" from by decide)
  unfold tryFrom
  rw [hpre]
  have hdrop : (lc "FROM" ++ (w1 ++ (id1 ++ rest))).drop 4 = w1 ++ (id1 ++ rest) := rfl
  rw [if_pos rfl, hdrop]
  cases w1 with
  | nil => exact absurd rfl hw1
  | cons a as =>
    have hsp : spaces1 ((a :: as) ++ (id1 ++ rest)) = some (id1 ++ rest) := by
      simp only [List.cons_append, spaces1]
      rw [if_pos (by simp [hw1s a (by simp)])]
      rw [dropWhile_all_then (fun c hc => hw1s c (by simp [hc])) ?_]
      intro c hc
      cases id1 with
      | nil => exact absurd rfl hid
      | cons d ds =>
        simp at hc
        rw [hc]
        exact word_not_space (hidw d (by simp))
    rw [hsp]
    cases id1 with
    | nil => exact absurd rfl hid
    | cons d ds =>
      simp only [List.cons_append, words1]
      rw [if_pos (by simp [hidw d (by simp)])]
      rw [dropWhile_all_then (fun c hc => hidw c (by simp [hc])) hrest]

theorem subFrom_match {w1 id1 rest : List Char}
    (hw1 : w1 ≠ []) (hw1s : ∀ c ∈ w1, pySpace c = true)
    (hid : id1 ≠ []) (hidw : ∀ c ∈ id1, isWordChar c = true)
    (hrest : ∀ c ∈ rest.take 1, isWordChar c = false) :
    subFrom (lc "FROM" ++ (w1 ++ (id1 ++ rest))) = fromRepl ++ subFrom rest := by
  have hm := tryFrom_match hw1 hw1s hid hidw hrest
  have hf : lc "FROM" ++ (w1 ++ (id1 ++ rest)) =
      'F' :: (lc "ROM" ++ (w1 ++ (id1 ++ rest))) := rfl
  unfold subFrom
  rw [hf]
  exact runSub_cons_some (fun hx => tryFrom_length hx) (hf ▸ hm)

theorem subFrom_id {l : List Char} (h : ∀ c ∈ l, pyLower c ≠ 'f') : subFrom l = l := by
  have h1 := subFrom_pass (u := l) (s := []) h
  simpa [subFrom, runSub_nil] using h1

theorem subWhere_id {l : List Char} (h : ∀ c ∈ l, pyLower c ≠ 'w') : subWhere l = l := by
  have h1 := subWhere_pass (u := l) (s := []) h
  simpa [subWhere, runSub_nil] using h1

theorem statusSub_id {l : List Char} (h : ∀ c ∈ l, c ≠ squote ∧ c ≠ dquote) :
    statusSub l = l := by
  have h1 := statusSub_pass (u := l) (s := []) h
  have h2 : statusSub [] = [] := rfl
  rw [h2] at h1
  simpa using h1

set_option maxRecDepth 10000 in
/-- C8 amended: on a simple statement `SELECT cols FROM tbl;` whose column
list contains no `f`/`w` letters (so the identifier rewrites cannot fire
inside it) and no quote characters, and whose repaired form contains neither
`count(` nor `limit` in lower case, the repair engine rewrites the table to
`ticketdetails`, appends `LIMIT 50;`, and a second repair pass leaves the
result unchanged. -/
theorem C8_repair_idempotent_on_simple_selects :
    ∀ cols tbl : List Char,
      (∀ c ∈ cols, pyLower c ≠ 'f' ∧ pyLower c ≠ 'w' ∧ c ≠ squote ∧ c ≠ dquote) →
      hasInfix (lc "count(")
        (lowerL (lc "SELECT " ++ cols ++ lc " FROM ticketdetails;")) = false →
      hasInfix (lc "limit")
        (lowerL (lc "SELECT " ++ cols ++ lc " FROM ticketdetails;")) = false →
      tbl ≠ [] → (∀ c ∈ tbl, isWordChar c = true) →
      repair_sql (lc "SELECT " ++ cols ++ lc " FROM " ++ tbl ++ lc ";") =
        lc "SELECT " ++ cols ++ lc " FROM ticketdetails LIMIT 50;" ∧
      repair_sql (repair_sql (lc "SELECT " ++ cols ++ lc " FROM " ++ tbl ++ lc ";")) =
        repair_sql (lc "SELECT " ++ cols ++ lc " FROM " ++ tbl ++ lc ";") := by
  intro cols tbl hcols hc2 hc3 ht1 ht2
  have hself : ∀ c ∈ lc "SELECT ",
      pyLower c ≠ 'f' ∧ pyLower c ≠ 'w' ∧ c ≠ squote ∧ c ≠ dquote := by decide
  have htail1 : ∀ c ∈ lc " FROM ticketdetails;",
      pyLower c ≠ 'w' ∧ c ≠ squote ∧ c ≠ dquote := by decide
  have htail2 : ∀ c ∈ lc " FROM ticketdetails LIMIT 50;",
      pyLower c ≠ 'w' ∧ c ≠ squote ∧ c ≠ dquote := by decide
  have huf : ∀ c ∈ lc "SELECT " ++ cols ++ [' '], pyLower c ≠ 'f' := by
    intro c hc
    rcases List.mem_append.mp hc with hc | hc
    · rcases List.mem_append.mp hc with hc | hc
      · exact (hself c hc).1
      · exact (hcols c hc).1
    · simp at hc
      rw [hc]
      decide
  have hsplit1 : lc "SELECT " ++ cols ++ lc " FROM " ++ tbl ++ lc ";" =
      (lc "SELECT " ++ cols ++ [' ']) ++ (lc "FROM" ++ ([' '] ++ (tbl ++ lc ";"))) := by
    rw [show (lc " FROM " : List Char) = [' '] ++ (lc "FROM" ++ [' ']) from by decide]
    simp only [List.append_assoc]
  have hfm : subFrom (lc "FROM" ++ ([' '] ++ (tbl ++ lc ";"))) = fromRepl ++ lc ";" := by
    rw [subFrom_match (by simp) (by decide) ht1 ht2 (by decide)]
    rw [show subFrom (lc ";") = lc ";" from by decide]
  have e1 : subFrom (lc "SELECT " ++ cols ++ lc " FROM " ++ tbl ++ lc ";") =
      lc "SELECT " ++ cols ++ lc " FROM ticketdetails;" := by
    rw [hsplit1, subFrom_pass huf, hfm]
    simp only [List.append_assoc]
    rw [show ([' '] : List Char) ++ (fromRepl ++ lc ";") =
      lc " FROM ticketdetails;" from by decide]
  have hyw : ∀ c ∈ lc "SELECT " ++ cols ++ lc " FROM ticketdetails;",
      pyLower c ≠ 'w' := by
    intro c hc
    rcases List.mem_append.mp hc with hc | hc
    · rcases List.mem_append.mp hc with hc | hc
      · exact (hself c hc).2.1
      · exact (hcols c hc).2.1
    · exact (htail1 c hc).1
  have hyq : ∀ c ∈ lc "SELECT " ++ cols ++ lc " FROM ticketdetails;",
      c ≠ squote ∧ c ≠ dquote := by
    intro c hc
    rcases List.mem_append.mp hc with hc | hc
    · rcases List.mem_append.mp hc with hc | hc
      · exact (hself c hc).2.2
      · exact (hcols c hc).2.2
    · exact (htail1 c hc).2
  have e2 : subWhere (lc "SELECT " ++ cols ++ lc " FROM ticketdetails;") =
      lc "SELECT " ++ cols ++ lc " FROM ticketdetails;" := subWhere_id hyw
  have e3 : statusSub (lc "SELECT " ++ cols ++ lc " FROM ticketdetails;") =
      lc "SELECT " ++ cols ++ lc " FROM ticketdetails;" := statusSub_id hyq
  have hsplit2 : lc "SELECT " ++ cols ++ lc " FROM ticketdetails;" =
      (lc "SELECT " ++ cols ++ lc " FROM ticketdetails") ++ [';'] := by
    rw [show (lc " FROM ticketdetails;" : List Char) =
      lc " FROM ticketdetails" ++ [';'] from by decide]
    simp only [List.append_assoc]
  have hrs : rstripSemi (lc "SELECT " ++ cols ++ lc " FROM ticketdetails;") =
      lc "SELECT " ++ cols ++ lc " FROM ticketdetails" := by
    unfold rstripSemi
    rw [hsplit2, List.rdropWhile_concat_pos _ _ _ (by decide)]
    rw [show (lc " FROM ticketdetails" : List Char) =
      lc " FROM ticketdetail" ++ ['s'] from by decide]
    rw [← List.append_assoc, List.rdropWhile_concat_neg _ _ _ (by decide)]
  have hxe : (lc "SELECT " ++ cols ++ lc " FROM " ++ tbl ++ lc ";").isEmpty = false := by
    refine Bool.eq_false_iff.mpr (fun h => ?_)
    exact absurd (List.append_eq_nil.mp (List.isEmpty_iff.mp h)).2 (by decide)
  have hnosemi : ¬(((pyStrip ((lc "SELECT " ++ cols ++ lc " FROM ticketdetails") ++
      lc " LIMIT 50")).getLast? == some ';') = true) := by
    have hlast : (pyStrip ((lc "SELECT " ++ cols ++ lc " FROM ticketdetails") ++
        lc " LIMIT 50")).getLast? = some '0' := by
      rw [show (lc " LIMIT 50" : List Char) = lc " LIMIT 5" ++ ['0'] from by decide,
        ← List.append_assoc]
      exact getLast?_pyStrip_concat (by decide)
    simp only [hlast]
    decide
  have hfirst : repair_sql (lc "SELECT " ++ cols ++ lc " FROM " ++ tbl ++ lc ";") =
      lc "SELECT " ++ cols ++ lc " FROM ticketdetails LIMIT 50;" := by
    rw [repair_sql_eq hxe, e1, e2, e3]
    unfold limitStage
    rw [if_pos (by rw [hc2, hc3]; decide), hrs]
    unfold semiStage
    rw [if_neg hnosemi]
    simp only [List.append_assoc]
    rw [show (lc " FROM ticketdetails" : List Char) ++ (lc " LIMIT 50" ++ [';']) =
      lc " FROM ticketdetails LIMIT 50;" from by decide]
  have hsplit3 : lc "SELECT " ++ cols ++ lc " FROM ticketdetails LIMIT 50;" =
      (lc "SELECT " ++ cols ++ [' ']) ++
        (lc "FROM" ++ ([' '] ++ (lc "ticketdetails" ++ lc " LIMIT 50;"))) := by
    rw [show (lc " FROM ticketdetails LIMIT 50;" : List Char) =
      [' '] ++ (lc "FROM" ++ ([' '] ++ (lc "ticketdetails" ++ lc " LIMIT 50;")))
      from by decide]
    simp only [List.append_assoc]
  have hfm2 : subFrom (lc "FROM" ++ ([' '] ++ (lc "ticketdetails" ++ lc " LIMIT 50;"))) =
      fromRepl ++ lc " LIMIT 50;" := by
    rw [subFrom_match (by simp) (by decide) (by decide) (by decide) (by decide)]
    rw [show subFrom (lc " LIMIT 50;") = lc " LIMIT 50;" from by decide]
  have e4 : subFrom (lc "SELECT " ++ cols ++ lc " FROM ticketdetails LIMIT 50;") =
      lc "SELECT " ++ cols ++ lc " FROM ticketdetails LIMIT 50;" := by
    conv_lhs => rw [hsplit3]
    rw [subFrom_pass huf, hfm2]
    simp only [List.append_assoc]
    rw [show ([' '] : List Char) ++ (fromRepl ++ lc " LIMIT 50;") =
      lc " FROM ticketdetails LIMIT 50;" from by decide]
  have hyw2 : ∀ c ∈ lc "SELECT " ++ cols ++ lc " FROM ticketdetails LIMIT 50;",
      pyLower c ≠ 'w' := by
    intro c hc
    rcases List.mem_append.mp hc with hc | hc
    · rcases List.mem_append.mp hc with hc | hc
      · exact (hself c hc).2.1
      · exact (hcols c hc).2.1
    · exact (htail2 c hc).1
  have hyq2 : ∀ c ∈ lc "SELECT " ++ cols ++ lc " FROM ticketdetails LIMIT 50;",
      c ≠ squote ∧ c ≠ dquote := by
    intro c hc
    rcases List.mem_append.mp hc with hc | hc
    · rcases List.mem_append.mp hc with hc | hc
      · exact (hself c hc).2.2
      · exact (hcols c hc).2.2
    · exact (htail2 c hc).2
  have e5 : subWhere (lc "SELECT " ++ cols ++ lc " FROM ticketdetails LIMIT 50;") =
      lc "SELECT " ++ cols ++ lc " FROM ticketdetails LIMIT 50;" := subWhere_id hyw2
  have e6 : statusSub (lc "SELECT " ++ cols ++ lc " FROM ticketdetails LIMIT 50;") =
      lc "SELECT " ++ cols ++ lc " FROM ticketdetails LIMIT 50;" := statusSub_id hyq2
  have hlim : hasInfix (lc "limit")
      (lowerL (lc "SELECT " ++ cols ++ lc " FROM ticketdetails LIMIT 50;")) = true := by
    rw [hasInfix_iff]
    have h1 : hasInfix (lc "limit") (lowerL (lc " FROM ticketdetails LIMIT 50;")) = true := by
      decide
    have hsuf : lowerL (lc " FROM ticketdetails LIMIT 50;") <:+
        lowerL (lc "SELECT " ++ cols ++ lc " FROM ticketdetails LIMIT 50;") :=
      ⟨lowerL (lc "SELECT " ++ cols), by simp [lowerL]⟩
    exact (hasInfix_iff.mp h1).trans hsuf.isInfix
  have hsplit4 : lc "SELECT " ++ cols ++ lc " FROM ticketdetails LIMIT 50;" =
      (lc "SELECT " ++ cols ++ lc " FROM ticketdetails LIMIT 50") ++ [';'] := by
    rw [show (lc " FROM ticketdetails LIMIT 50;" : List Char) =
      lc " FROM ticketdetails LIMIT 50" ++ [';'] from by decide]
    simp only [List.append_assoc]
  have hRe : (lc "SELECT " ++ cols ++ lc " FROM ticketdetails LIMIT 50;").isEmpty = false := by
    refine Bool.eq_false_iff.mpr (fun h => ?_)
    exact absurd (List.append_eq_nil.mp (List.isEmpty_iff.mp h)).2 (by decide)
  have hsemi : (pyStrip (lc "SELECT " ++ cols ++
      lc " FROM ticketdetails LIMIT 50;")).getLast? = some ';' := by
    rw [hsplit4]
    exact getLast?_pyStrip_concat (by decide)
  have hsecond : repair_sql (lc "SELECT " ++ cols ++ lc " FROM ticketdetails LIMIT 50;") =
      lc "SELECT " ++ cols ++ lc " FROM ticketdetails LIMIT 50;" := by
    rw [repair_sql_eq hRe, e4, e5, e6]
    unfold limitStage
    rw [if_neg (by rw [hlim]; simp)]
    unfold semiStage
    rw [if_pos (by rw [hsemi]; decide)]
  exact ⟨hfirst, by rw [hfirst, hsecond]⟩

set_option maxRecDepth 10000 in
/-- Witness: a concrete column list and table name satisfy the amended
idempotence theorem's hypotheses, and the repaired statement is a fixed
point of the repair engine. -/
theorem C8_repair_idempotent_on_simple_selects_witness :
    repair_sql (lc "SELECT IncidentID, TicketStatus FROM tickets;") =
      lc "SELECT IncidentID, TicketStatus FROM ticketdetails LIMIT 50;" ∧
    repair_sql (repair_sql (lc "SELECT IncidentID, TicketStatus FROM tickets;")) =
      repair_sql (lc "SELECT IncidentID, TicketStatus FROM tickets;") := by
  have h := C8_repair_idempotent_on_simple_selects (lc "IncidentID, TicketStatus")
    (lc "tickets") (by decide) (by decide) (by decide) (by decide) (by decide)
  rw [show (lc "SELECT " ++ lc "IncidentID, TicketStatus" ++ lc " FROM " ++
      lc "tickets" ++ lc ";" : List Char) =
      lc "SELECT IncidentID, TicketStatus FROM tickets;" from by decide,
    show (lc "SELECT " ++ lc "IncidentID, TicketStatus" ++
      lc " FROM ticketdetails LIMIT 50;" : List Char) =
      lc "SELECT IncidentID, TicketStatus FROM ticketdetails LIMIT 50;" from by decide] at h
  exact h

set_option maxRecDepth 10000 in
/-- C9 counterexample: a raw text with no case-insensitive occurrence of
`SELECT` (a fence marker interrupts the word) from which the cleaner still
extracts a full `SELECT` statement, because the fence markers are removed
before the search. -/
theorem C9_counterexample :
    hasInfix (lc "select")
      (lowerL (lc "SEL" ++ [bquote, bquote, bquote] ++ lc "ECT 1;")) = false ∧
    clean_sql (lc "SEL" ++ [bquote, bquote, bquote] ++ lc "ECT 1;") = lc "SELECT 1;" := by
  decide

theorem findSelSemi_none {l : List Char}
    (h : hasInfix (lc "select") (lowerL l) = false) : findSelSemi l = none := by
  induction l with
  | nil => rfl
  | cons c cs ih =>
    simp only [lowerL, List.map_cons] at h
    have h2 : (List.isPrefixOf (lc "select") (pyLower c :: (cs.map pyLower)) ||
        hasInfix (lc "select") (cs.map pyLower)) = false := h
    rcases Bool.or_eq_false_iff.mp h2 with ⟨hp, ht⟩
    have hpre : hasPrefixCI (lc "select") (c :: cs) = false := by
      refine Bool.eq_false_iff.mpr (fun htr => ?_)
      have hx := hasPrefixCI_iff.mp htr
      have : List.isPrefixOf (lc "select") (pyLower c :: (cs.map pyLower)) = true := by
        rw [List.isPrefixOf_iff_prefix]
        exact hx
      rw [this] at hp
      exact Bool.noConfusion hp
    have hsa : selSemiAt (c :: cs) = none := by
      unfold selSemiAt
      rw [if_neg (by simp [hpre])]
    unfold findSelSemi
    rw [hsa]
    exact ih ht
  
set_option maxHeartbeats 1000000 in
theorem findSelRest_none {l : List Char}
    (h : hasInfix (lc "select") (lowerL l) = false) : findSelRest l = none := by
  induction l with
  | nil => rfl
  | cons c cs ih =>
    simp only [lowerL, List.map_cons] at h
    have h2 : (List.isPrefixOf (lc "select") (pyLower c :: (cs.map pyLower)) ||
        hasInfix (lc "select") (cs.map pyLower)) = false := h
    rcases Bool.or_eq_false_iff.mp h2 with ⟨hp, ht⟩
    have hpre : hasPrefixCI (lc "select") (c :: cs) = false := by
      refine Bool.eq_false_iff.mpr (fun htr => ?_)
      have hx := hasPrefixCI_iff.mp htr
      have : List.isPrefixOf (lc "select") (pyLower c :: (cs.map pyLower)) = true := by
        rw [List.isPrefixOf_iff_prefix]
        exact hx
      rw [this] at hp
      exact Bool.noConfusion hp
    have hsa : selRestAt (c :: cs) = none := by
      unfold selRestAt
      rw [if_neg (by simp [hpre])]
    unfold findSelRest
    rw [hsa]
    exact ih ht

/-- C9 amended: if the raw text contains no case-insensitive occurrence of
`select` after the fence markers have been removed, the cleaner returns the
empty string. -/
theorem C9_clean_sql_empty_without_select :
    ∀ raw : List Char,
      hasInfix (lc "select") (lowerL (stripFences raw)) = false →
      clean_sql raw = [] := by
  intro raw h
  by_cases hr : raw.isEmpty = true
  · unfold clean_sql
    rw [if_pos hr]
  · have h2 : hasInfix (lc "select") (lowerL (pyStrip (stripFences raw))) = false := by
      refine Bool.eq_false_iff.mpr (fun htr => ?_)
      have hinf := hasInfix_iff.mp htr
      have hsub : lowerL (pyStrip (stripFences raw)) <:+: lowerL (stripFences raw) :=
        (pyStrip_inf (stripFences raw)).map pyLower
      have hup : hasInfix (lc "select") (lowerL (stripFences raw)) = true :=
        hasInfix_iff.mpr (hinf.trans hsub)
      rw [hup] at h
      exact Bool.noConfusion h
    unfold clean_sql
    rw [if_neg hr]
    simp only [findSelSemi_none h2, findSelRest_none h2]

set_option maxRecDepth 10000 in
/-- Witness: a raw text with no `select` anywhere is cleaned to the empty
string. -/
theorem C9_clean_sql_empty_without_select_witness :
    clean_sql (lc "no statement here") = [] :=
  C9_clean_sql_empty_without_select (lc "no statement here") (by decide)

set_option maxRecDepth 10000 in
/-- C10 counterexample: when the first `SELECT` is immediately followed by a
semicolon, the lazy pattern needs at least one character before its
terminating `;`, so the extracted statement runs past that first semicolon
into the following statement. -/
theorem C10_counterexample :
    clean_sql (lc "SELECT;extra; tail") = lc "SELECT;extra;" ∧
      clean_sql (lc "SELECT;extra; tail") ≠ lc "SELECT;" := by
  decide

theorem upToSemi_structure {cs u : List Char} (h : upToSemi cs = some u) :
    ∃ mid, u = mid ++ [';'] ∧ ';' ∉ mid := by
  induction cs generalizing u with
  | nil => exact absurd h (by simp [upToSemi])
  | cons c cs ih =>
    unfold upToSemi at h
    by_cases hc : c = ';'
    · rw [if_pos hc] at h
      have hu : [c] = u := by simpa using h
      refine ⟨[], ?_, by simp⟩
      rw [← hu, hc]
      rfl
    · rw [if_neg hc] at h
      cases hcs : upToSemi cs with
      | none => rw [hcs] at h; exact absurd h (by simp)
      | some v =>
        rw [hcs] at h
        have hu : c :: v = u := by simpa using h
        obtain ⟨mid, hmid, hnot⟩ := ih hcs
        refine ⟨c :: mid, ?_, ?_⟩
        · rw [← hu, hmid]
          rfl
        · intro hmem
          rcases List.mem_cons.mp hmem with h1 | h1
          · exact hc h1.symm
          · exact hnot h1

set_option maxHeartbeats 1000000 in
theorem selSemiAt_structure {l m : List Char} (h : selSemiAt l = some m) :
    ∃ c mid, m = m.take 6 ++ c :: (mid ++ [';']) ∧ ';' ∉ mid ∧
      lowerL (m.take 6) = lc "select" := by
  unfold selSemiAt at h
  by_cases hp : hasPrefixCI (lc "select") l = true
  · rw [if_pos hp] at h
    cases hd : l.drop 6 with
    | nil =>
      rw [hd] at h
      simp at h
    | cons c cs =>
      rw [hd] at h
      simp only [Option.map_eq_some'] at h
      obtain ⟨u, hu, hm⟩ := h
      obtain ⟨mid, hmid, hnot⟩ := upToSemi_structure hu
      have hpre := hasPrefixCI_iff.mp hp
      have hlen : 6 ≤ l.length := by
        have h1 := hpre.length_le
        have h2 : (lc "select").length = 6 := by decide
        have h3 : (lowerL l).length = l.length := by simp [lowerL]
        omega
      have htl : (l.take 6).length = 6 := by
        rw [List.length_take]
        omega
      have htake : m.take 6 = l.take 6 := by
        rw [← hm]
        exact List.take_left' htl
      have hlow : lowerL (l.take 6) = lc "select" := by
        obtain ⟨t, ht⟩ := hpre
        have h1 : lowerL (l.take 6) = (lowerL l).take 6 := by
          simp [lowerL, List.map_take]
        rw [h1, ← ht, List.take_left' (by decide)]
      refine ⟨c, mid, ?_, hnot, ?_⟩
      · rw [htake, ← hm, hmid]
      · rw [htake]
        exact hlow
  · rw [if_neg hp] at h
    exact absurd h (by simp)

set_option maxHeartbeats 1000000 in
theorem findSelSemi_structure {l m : List Char} (h : findSelSemi l = some m) :
    ∃ c mid, m = m.take 6 ++ c :: (mid ++ [';']) ∧ ';' ∉ mid ∧
      lowerL (m.take 6) = lc "select" := by
  induction l with
  | nil => exact absurd h (by simp [findSelSemi])
  | cons a as ih =>
    unfold findSelSemi at h
    cases hs : selSemiAt (a :: as) with
    | some n =>
      rw [hs] at h
      have hn : n = m := by simpa using h
      exact hn ▸ selSemiAt_structure hs
    | none =>
      rw [hs] at h
      exact ih h

set_option maxHeartbeats 1000000 in
/-- C10 amended: whenever the lazy `SELECT...;` search succeeds on the
fence-stripped, stripped raw text, the cleaner returns exactly that match,
which consists of a case-insensitive `SELECT` token, one arbitrary character,
a semicolon-free middle, and a terminating `;` — so the extraction stops at
the first semicolon lying at least one character past the `SELECT` token and
discards everything after it, but can run past a semicolon immediately
adjacent to `SELECT`. -/
theorem C10_extraction_stops_at_first_later_semicolon :
    ∀ raw m : List Char,
      findSelSemi (pyStrip (stripFences raw)) = some m →
      clean_sql raw = m ∧
      ∃ c mid, m = m.take 6 ++ c :: (mid ++ [';']) ∧ ';' ∉ mid ∧
        lowerL (m.take 6) = lc "select" := by
  intro raw m hfind
  obtain ⟨c, mid, hm, hnot, hlow⟩ := findSelSemi_structure hfind
  cases h6 : m.take 6 with
  | nil =>
    rw [h6] at hlow
    exact absurd hlow (by decide)
  | cons h0 h6s =>
    rw [h6] at hm hlow
    rw [show (lc "select" : List Char) = 's' :: lc "elect" from by decide] at hlow
    simp only [lowerL, List.map_cons] at hlow
    have hpl : pyLower h0 = 's' := by
      injection hlow
    have hsp0 : pySpace h0 = false := by
      rw [← pySpace_pyLower, hpl]
      decide
    have hm2 : m = (h0 :: h6s ++ c :: mid) ++ [';'] := by
      conv_lhs => rw [hm]
      simp
    have hm3 : m = h0 :: (h6s ++ c :: (mid ++ [';'])) := by
      conv_lhs => rw [hm]
      rfl
    have hdrop : m.dropWhile pySpace = m := by
      conv_lhs => rw [hm3]
      rw [List.dropWhile_cons_of_neg (by simp [hsp0])]
      exact hm3.symm
    have hrdrop : List.rdropWhile pySpace m = m := by
      conv_lhs => rw [hm2]
      rw [List.rdropWhile_concat_neg _ _ _ (by decide)]
      exact hm2.symm
    have hstrip : pyStrip m = m := by
      unfold pyStrip
      rw [hdrop, hrdrop]
    have hre : raw.isEmpty = false := by
      refine Bool.eq_false_iff.mpr (fun h0e => ?_)
      have hraw : raw = [] := List.isEmpty_iff.mp h0e
      rw [hraw, show findSelSemi (pyStrip (stripFences [])) = none from rfl] at hfind
      exact Option.noConfusion hfind
    constructor
    · unfold clean_sql
      rw [if_neg (by simp [hre])]
      simp only [hfind]
      exact hstrip
    · refine ⟨c, mid, ?_, hnot, ?_⟩
      · exact hm
      · rw [show (lc "select" : List Char) = 's' :: lc "elect" from by decide]
        simp only [lowerL, List.map_cons]
        exact hlow

set_option maxRecDepth 10000 in
/-- Witness: on a prose-wrapped statement, the cleaner extracts exactly the
first `SELECT ... ;` and discards the trailing text. -/
theorem C10_extraction_stops_at_first_later_semicolon_witness :
    clean_sql (lc "Sure: SELECT a; then more") = lc "SELECT a;" ∧
    ∃ c mid, (lc "SELECT a;" : List Char) =
        (lc "SELECT a;").take 6 ++ c :: (mid ++ [';']) ∧ ';' ∉ mid ∧
      lowerL ((lc "SELECT a;").take 6) = lc "select" :=
  C10_extraction_stops_at_first_later_semicolon
    (lc "Sure: SELECT a; then more") (lc "SELECT a;") (by decide)
